import Mathlib

/-!
Verification development for the GraphFS directory-graph synchronization
engine.  The definitions below are a shallow embedding of the client-side
graph state model of `src/graph_fs/frontend/utility.js` (the nodes/forest
module): the node table, OpenSet, SelectedSet, edge list and the handlers
`expandFolder`, `collapseFolder`, `handleListing`, `handleNodeClick`,
`handleLassoSelect`, `handleFsEvent`, `handleRootAdded`, `handleRootRemoved`
together with their helpers.

JavaScript objects are modelled by an explicit heap (`State.heap`, a list of
`Node` records indexed by allocation order); object references are heap
indices, so the in-place mutation and aliasing of the source (node objects
shared between `nodesMap`, `nodesData`, `linksData` and `children` arrays)
is preserved.  JavaScript `Map`/`Set` are association lists / lists with
membership-guarded insertion, preserving insertion order.  Paths are ASCII
strings; JavaScript string primitives are embedded char-by-char.
-/

namespace GraphFS

/-! ### JavaScript string primitives (char-level embedding) -/

/-- Embeds `a.startsWith(b)`. -/
def jsStartsWith (a b : String) : Bool :=
  b.toList.isPrefixOf a.toList

/-- Embeds `a.endsWith(b)`. -/
def jsEndsWith (a b : String) : Bool :=
  b.toList.isSuffixOf a.toList

/-- Embeds `a.includes(c)` for a single character. -/
def jsContainsChar (a : String) (c : Char) : Bool :=
  a.toList.contains c

/-- Embeds `a.length` (ASCII, so UTF-16 units = chars). -/
def jsLen (a : String) : Nat :=
  a.toList.length

/-- Embeds `a.slice(n)`. -/
def jsSlice (a : String) (n : Nat) : String :=
  String.mk (a.toList.drop n)

/-- Splitting on `/[/\\]/`: cuts at every `/` or `\` character. -/
def splitSegsAux : List Char → List Char → List String
  | [], cur => [String.mk cur.reverse]
  | c :: rest, cur =>
    if c = '/' ∨ c = '\\' then
      String.mk cur.reverse :: splitSegsAux rest []
    else
      splitSegsAux rest (c :: cur)

/-- Embeds `p.split(/[/\\]/)`. -/
def rawSegs (p : String) : List String :=
  splitSegsAux p.toList []

/-- Embeds `p.split(/[/\\]/).filter(Boolean)`. -/
def segsOf (p : String) : List String :=
  (rawSegs p).filter (fun seg => seg ≠ "")

/-- Embeds `norm` from utility.js:
`(p || '').replace(/\\/g, '/').replace(/\/+$/,'')`. -/
def norm (p : String) : String :=
  let replaced := p.toList.map (fun c => if c = '\\' then '/' else c)
  String.mk ((replaced.reverse.dropWhile (fun c => c = '/')).reverse)

/-- Embeds `isAncestorPath` from utility.js. -/
def isAncestorPath (ancestor child : String) : Bool :=
  let a := norm ancestor
  let c := norm child
  a ≠ "" && c ≠ "" && a ≠ c && jsStartsWith c (a ++ "/")

/-- Embeds `basename` from utility.js. -/
def basename (p : String) : String :=
  let parts := segsOf p
  match parts.getLast? with
  | some last => last
  | none => p

/-- Embeds `parentDir` from utility.js (lines 693-702). -/
def parentDir (path : String) : String :=
  let parts := segsOf path
  if parts.length ≤ 1 then path
  else
    let parts2 := parts.dropLast
    let sep : String := if jsContainsChar path '\\' then "\\" else "/"
    let parent := String.intercalate sep parts2
    let parent := if jsStartsWith path sep then sep ++ parent else parent
    let parent :=
      if (match path.toList with
          | c :: d :: _ => c.isAlpha && d = ':'
          | _ => false) && jsEndsWith parent ":"
      then parent ++ sep else parent
    if parent = "" then path else parent

/-- Embeds the `rebase` closure of `renameOpenFolder`:
`oldId.startsWith(oldPath) ? newPath + oldId.slice(oldPath.length) : oldId`. -/
def renameRebase (oldPath newPath oldId : String) : String :=
  if jsStartsWith oldId oldPath then newPath ++ jsSlice oldId (jsLen oldPath)
  else oldId

/-! ### Data model -/

/-- Embeds the `Node` class of nodes.js.  `children` holds heap references
(JS object references); `id` always mirrors `fullPath` as in the source. -/
structure Node where
  nodeName : String
  fullPath : String
  type : String
  children : List Nat
  id : String
  isOpen : Bool
  depth : Nat
  selected : Bool
  parentId : Option String
  isRoot : Bool
  deriving Repr, DecidableEq

/-- The client-held graph state: the module-level mutable structures of
nodes.js plus an explicit heap of allocated node objects and a log of
emitted `list_dir` requests. -/
structure State where
  heap : List Node
  nodesData : List Nat
  linksData : List (Nat × Nat)
  nodesMap : List (String × Nat)
  selectedFiles : List String
  openFolders : List String
  rootsMap : List (String × (String × String))
  requests : List String
  deriving Repr, DecidableEq

/-- The initial (empty) state. -/
def State.empty : State :=
  { heap := [], nodesData := [], linksData := [], nodesMap := [],
    selectedFiles := [], openFolders := [], rootsMap := [], requests := [] }

/-! ### JS Map / Set operations (insertion-ordered association lists) -/

/-- `Map.get`. -/
def aLookup {β : Type} (m : List (String × β)) (k : String) : Option β :=
  match m.find? (fun e => e.1 = k) with
  | some e => some e.2
  | none => none

/-- `Map.has`. -/
def aHas {β : Type} (m : List (String × β)) (k : String) : Bool :=
  (aLookup m k).isSome

/-- `Map.set` (overwrite keeps the original insertion position). -/
def aSet {β : Type} (m : List (String × β)) (k : String) (v : β) :
    List (String × β) :=
  if aHas m k then m.map (fun e => if e.1 = k then (k, v) else e)
  else m ++ [(k, v)]

/-- `Map.delete`. -/
def aDel {β : Type} (m : List (String × β)) (k : String) : List (String × β) :=
  m.filter (fun e => e.1 ≠ k)

/-- `Set.add` (no-op when present, appends otherwise). -/
def sAdd (l : List String) (x : String) : List String :=
  if l.contains x then l else l ++ [x]

/-- `Set.delete`. -/
def sDel (l : List String) (x : String) : List String :=
  l.filter (fun y => y ≠ x)

/-! ### Heap access -/

/-- Dereference a node object.  In every state built by the operations
below, references held by `nodesMap`, `nodesData`, `linksData` and
`children` arrays are valid heap indices. -/
def hGet (s : State) (r : Nat) : Option Node :=
  s.heap.get? r

/-- In-place mutation of the object at reference `r`. -/
def hSet (s : State) (r : Nat) (n : Node) : State :=
  { s with heap := s.heap.set r n }

/-- Current `id` of the object at `r` (JS `x.id`). -/
def idOf (s : State) (r : Nat) : String :=
  match hGet s r with
  | some n => n.id
  | none => ""

/-- Current `children` of the object at `r`. -/
def childrenOf (s : State) (r : Nat) : List Nat :=
  match hGet s r with
  | some n => n.children
  | none => []

/-- Current `depth` of the object at `r`. -/
def depthOf (s : State) (r : Nat) : Nat :=
  match hGet s r with
  | some n => n.depth
  | none => 0

/-- Current `isOpen` of the object at `r`. -/
def isOpenOf (s : State) (r : Nat) : Bool :=
  match hGet s r with
  | some n => n.isOpen
  | none => false

/-! ### Subtree traversals (explicit JS array-stacks; the list head is the
stack top, so `stack.pop()` is the head and `stack.push(...children)`
prepends the reversed children).  The fuel bounds the number of pops; in
the forest states the operations build, the subtree size never exceeds the
heap size, so `heap.length + 1` never truncates. -/

/-- Loop of `getDescendants` (utility.js lines 512-523), accumulating ids
in pop order. -/
def descendStep (s : State) : Nat → List Nat → List String → List String
  | 0, _, acc => acc
  | _ + 1, [], acc => acc
  | fuel + 1, cur :: rest, acc =>
    descendStep s fuel ((childrenOf s cur).reverse ++ rest) (acc ++ [idOf s cur])

/-- Embeds `getDescendants(node)`: ids of all materialized strict
descendants, in traversal (pop) order. -/
def getDescendants (s : State) (r : Nat) : List String :=
  descendStep s (s.heap.length + 1) (childrenOf s r).reverse []

/-- Loop of the `affected` collection in `renameOpenFolder` (lines
530-536), accumulating references in pop order. -/
def collectStep (s : State) : Nat → List Nat → List Nat → List Nat
  | 0, _, acc => acc
  | _ + 1, [], acc => acc
  | fuel + 1, cur :: rest, acc =>
    collectStep s fuel ((childrenOf s cur).reverse ++ rest) (acc ++ [cur])

/-- The `affected` list of `renameOpenFolder`: the node itself and all
materialized descendants, as references, in traversal order. -/
def collectSubtree (s : State) (r : Nat) : List Nat :=
  collectStep s (s.heap.length + 1) [r] []

/-! ### Core mutations -/

/-- The detach step of `removeNodeAndDescendants` (utility.js lines
489-492): if the node has a parent in the table, filter it out of that
parent object\x27s `children` array. -/
def detachFromParent (s : State) (node : Node) : State :=
  match node.parentId with
  | some pid =>
    if pid ≠ "" then
      match aLookup s.nodesMap pid with
      | some pr =>
        match hGet s pr with
        | some pn =>
          hSet s pr
            { pn with children :=
                pn.children.filter (fun ch => idOf s ch ≠ node.id) }
        | none => s
      | none => s
    else s
  | none => s

/-- One iteration of the `descendants.forEach` eviction loop of
`removeNodeAndDescendants` (utility.js lines 497-503). -/
def removeIdStep (st : State) (did : String) : State :=
  match aLookup st.nodesMap did with
  | none => st
  | some nr =>
    let isFolder : Bool := match hGet st nr with
      | some n => n.type = "folder"
      | none => false
    let st := { st with nodesMap := aDel st.nodesMap did,
                        selectedFiles := sDel st.selectedFiles did }
    if isFolder then { st with openFolders := sDel st.openFolders did }
    else st

/-- The `descendants` id list of `removeNodeAndDescendants` (lines
494-495): the traversal of the node (computed after the detach step, whose
heap the traversal reads) followed by the node\x27s own id. -/
def removalIds (s : State) (node : Node) (r : Nat) : List String :=
  getDescendants (detachFromParent s node) r ++ [node.id]

/-- Embeds `removeNodeAndDescendants` (utility.js lines 488-510). -/
def removeNodeAndDescendants (s : State) (r : Nat) : State :=
  match hGet s r with
  | none => s
  | some node =>
    let s1 := detachFromParent s node
    let descendants := removalIds s node r
    let s2 := descendants.foldl removeIdStep s1
    { s2 with
      nodesData := s2.nodesData.filter
        (fun dr => !(descendants.contains (idOf s2 dr))),
      linksData := s2.linksData.filter
        (fun l => !(descendants.contains (idOf s2 l.1)) &&
                  !(descendants.contains (idOf s2 l.2))) }

/-- Embeds `collapseFolder` (utility.js lines 411-433). -/
def collapseFolder (s : State) (r : Nat) : State :=
  match hGet s r with
  | none => s
  | some node =>
    if !node.isOpen then s
    else
      let descendants := getDescendants s r
      let s1 := descendants.foldl (fun st did =>
        { st with nodesMap := aDel st.nodesMap did,
                  selectedFiles := sDel st.selectedFiles did,
                  openFolders := sDel st.openFolders did }) s
      let s2 := { s1 with
        nodesData := s1.nodesData.filter
          (fun dr => !(descendants.contains (idOf s1 dr))),
        linksData := s1.linksData.filter
          (fun l => !(descendants.contains (idOf s1 l.1)) &&
                    !(descendants.contains (idOf s1 l.2))) }
      let s3 :=
        match hGet s2 r with
        | some n2 => hSet s2 r { n2 with children := [], isOpen := false }
        | none => s2
      { s3 with openFolders := sDel s3.openFolders node.id }

/-- Embeds `expandFolder` (utility.js lines 400-409); the `listDir` call is
logged in `requests`. -/
def expandFolder (s : State) (r : Nat) : State :=
  match hGet s r with
  | none => s
  | some node =>
    if node.isOpen then s
    else
      let s1 := hSet s r { node with isOpen := true }
      let s2 := { s1 with openFolders := sAdd s1.openFolders node.id }
      { s2 with requests := s2.requests ++ [node.id] }

/-- Embeds `toggleFolder` (utility.js lines 395-398). -/
def toggleFolder (s : State) (r : Nat) : State :=
  match hGet s r with
  | none => s
  | some node =>
    if node.type ≠ "folder" then s
    else if node.isOpen then collapseFolder s r
    else expandFolder s r

/-- Embeds `handleNodeClick` (utility.js lines 361-370). -/
def handleNodeClick (s : State) (r : Nat) : State :=
  match hGet s r with
  | none => s
  | some d =>
    if d.type = "folder" then toggleFolder s r
    else if d.type = "file" then
      let d2 := { d with selected := !d.selected }
      let s1 := hSet s r d2
      if d2.selected then { s1 with selectedFiles := sAdd s1.selectedFiles d2.id }
      else { s1 with selectedFiles := sDel s1.selectedFiles d2.id }
    else s

/-- Embeds `topLevelFoldersOnly` (utility.js lines 211-214). -/
def topLevelFoldersOnly (s : State) (folders : List Nat) : List Nat :=
  let ids := folders.map (idOf s)
  folders.filter (fun f =>
    !(ids.any (fun i => i ≠ idOf s f && isAncestorPath i (idOf s f))))

/-- Stable insertion for the descending-depth sort
(`.sort((a,b) => b.depth - a.depth)`). -/
def insertDesc (s : State) (a : Nat) : List Nat → List Nat
  | [] => [a]
  | b :: l =>
    if depthOf s a ≥ depthOf s b then a :: b :: l else b :: insertDesc s a l

/-- Stable descending-depth sort (JS `Array.prototype.sort` is stable, so
any stable algorithm with the same comparator yields the same list). -/
def sortDescDepth (s : State) (l : List Nat) : List Nat :=
  l.foldr (insertDesc s) []

/-- Stable insertion for the ascending-depth sort
(`.sort((a,b) => a.depth - b.depth)`). -/
def insertAsc (s : State) (a : Nat) : List Nat → List Nat
  | [] => [a]
  | b :: l =>
    if depthOf s a ≤ depthOf s b then a :: b :: l else b :: insertAsc s a l

/-- Stable ascending-depth sort. -/
def sortAscDepth (s : State) (l : List Nat) : List Nat :=
  l.foldr (insertAsc s) []

/-- The collapse batch of `handleLassoSelect`: captured top-level open
folders, deepest first. -/
def lassoToClose (s : State) (folderCandidates : List Nat) : List Nat :=
  sortDescDepth s ((topLevelFoldersOnly s folderCandidates).filter
    (fun r => isOpenOf s r))

/-- The expand batch of `handleLassoSelect`: captured top-level closed
folders, shallowest first. -/
def lassoToOpen (s : State) (folderCandidates : List Nat) : List Nat :=
  sortAscDepth s ((topLevelFoldersOnly s folderCandidates).filter
    (fun r => !(isOpenOf s r)))

/-- Embeds `handleLassoSelect` (utility.js lines 372-393): toggle every
captured node, then resolve folder toggles through
`topLevelFoldersOnly`, collapsing deepest-first and expanding
shallowest-first. -/
def handleLassoSelect (s : State) (rs : List Nat) : State :=
  let acc := rs.foldl (fun (acc : State × List Nat) dr =>
    let st := acc.1
    let fc := acc.2
    match hGet st dr with
    | none => (st, fc)
    | some d =>
      let d2 := { d with selected := !d.selected }
      let st := hSet st dr d2
      if d2.type = "file" then
        if d2.selected then
          ({ st with selectedFiles := sAdd st.selectedFiles d2.id }, fc)
        else
          ({ st with selectedFiles := sDel st.selectedFiles d2.id }, fc)
      else if d2.type = "folder" then (st, fc ++ [dr])
      else (st, fc)) (s, [])
  let s1 := acc.1
  let folderCandidates := acc.2
  if folderCandidates.isEmpty then s1
  else
    let toClose := lassoToClose s1 folderCandidates
    let toOpen := lassoToOpen s1 folderCandidates
    let s2 := toClose.foldl collapseFolder s1
    toOpen.foldl expandFolder s2

/-! ### Listings and fs events -/

/-- A child record of a `listing` message: `{name, path, kind}`. -/
structure ChildEntry where
  name : String
  path : String
  type : String
  deriving Repr, DecidableEq

/-- One step of the `children.forEach` insertion loop of `handleListing`
(lines 458-473).  The accumulator carries the state and the pending
`newNodes` / `newLinks` arrays. -/
def listingInsertStep (pr : Nat) (acc : State × List Nat × List (Nat × Nat))
    (c : ChildEntry) : State × List Nat × List (Nat × Nat) :=
  let st := acc.1
  let newNodes := acc.2.1
  let newLinks := acc.2.2
  match aLookup st.nodesMap c.path with
  | some cr =>
    let linkExists := st.linksData.any (fun l =>
      idOf st l.1 = idOf st pr && idOf st l.2 = idOf st cr)
    if linkExists then (st, newNodes, newLinks)
    else (st, newNodes, newLinks ++ [(pr, cr)])
  | none =>
    let newRef := st.heap.length
    let pdepth := depthOf st pr
    let pid := idOf st pr
    let cn : Node :=
      { nodeName := c.name, fullPath := c.path, type := c.type,
        children := [], id := c.path, isOpen := false, depth := pdepth + 1,
        selected := false, parentId := some pid, isRoot := false }
    let st := { st with heap := st.heap ++ [cn] }
    let st := { st with nodesMap := aSet st.nodesMap cn.id newRef }
    let st :=
      match hGet st pr with
      | some pn => hSet st pr { pn with children := pn.children ++ [newRef] }
      | none => st
    let linkExists := st.linksData.any (fun l =>
      idOf st l.1 = idOf st pr && idOf st l.2 = idOf st newRef)
    (st, newNodes ++ [newRef],
     if linkExists then newLinks else newLinks ++ [(pr, newRef)])

/-- Embeds `handleListing` (utility.js lines 436-486), including the
staleness guard, the reconciliation of vanished children, the insertion of
new children, and the re-listing of already-open subfolders. -/
def handleListing (s : State) (dirPath : String) (children : List ChildEntry) :
    State :=
  if !(s.openFolders.contains dirPath) || !(aHas s.nodesMap dirPath) then s
  else
    match aLookup s.nodesMap dirPath with
    | none => s
    | some pr =>
      let s1 :=
        match hGet s pr with
        | some pn => hSet s pr { pn with isOpen := true }
        | none => s
      let s2 := { s1 with openFolders := sAdd s1.openFolders dirPath }
      let childIds := children.map (fun c => c.path)
      let currentChildren := s2.nodesData.filter (fun nr =>
        s2.linksData.any (fun l =>
          idOf s2 l.1 = dirPath && idOf s2 l.2 = idOf s2 nr))
      let s3 := currentChildren.foldl (fun st ch =>
        if !(childIds.contains (idOf st ch)) then removeNodeAndDescendants st ch
        else st) s2
      let folded := children.foldl (listingInsertStep pr) (s3, [], [])
      let s4 := folded.1
      let s5 := { s4 with nodesData := s4.nodesData ++ folded.2.1,
                          linksData := s4.linksData ++ folded.2.2 }
      let relist := (children.filter (fun c =>
        c.type = "folder" && s5.openFolders.contains c.path)).map
        (fun c => c.path)
      { s5 with requests := s5.requests ++ relist }

/-- Embeds `updateSetRename` (utility.js lines 565-567). -/
def updateSetRename (l : List String) (oldId newId : String) : List String :=
  if l.contains oldId then sAdd (sDel l oldId) newId else l

/-- The node transformation of one `affected.forEach` iteration of
`renameOpenFolder` (utility.js lines 549-559): re-key `id`/`fullPath` by
prefix substitution; for the moved node itself take the new basename, for
a descendant rebase the parent back-reference.  Every other field
(`type`, `children`, `isOpen`, `depth`, `selected`, `isRoot`) is kept. -/
def renamedNode (oldPath newPath : String) (nr cr : Nat) (n : Node) : Node :=
  let newId := renameRebase oldPath newPath n.id
  let n2 := { n with id := newId, fullPath := newId }
  if cr = nr then
    { n2 with nodeName :=
        match (segsOf newPath).getLast? with
        | some nm => nm
        | none => n2.nodeName }
  else
    match n2.parentId with
    | some pid =>
      if pid ≠ "" then
        { n2 with parentId := some (renameRebase oldPath newPath pid) }
      else n2
    | none => n2

/-- One `affected.forEach` iteration of `renameOpenFolder` (utility.js
lines 540-560): transport OpenSet and SelectedSet membership from the old
id to the rebased id, re-key the node table entry, and mutate the node in
place. -/
def renameStep (oldPath newPath : String) (nr : Nat) (st : State) (cr : Nat) :
    State :=
  match hGet st cr with
  | none => st
  | some n =>
    let oldId := n.id
    let newId := renameRebase oldPath newPath oldId
    let st :=
      if n.type = "folder" && n.isOpen then
        { st with openFolders := sAdd (sDel st.openFolders oldId) newId }
      else st
    let st := { st with
      selectedFiles := updateSetRename st.selectedFiles oldId newId }
    let st := { st with nodesMap := aDel st.nodesMap oldId }
    let n3 := renamedNode oldPath newPath nr cr n
    let st := hSet st cr n3
    { st with nodesMap := aSet st.nodesMap n3.id cr }

/-- Embeds `renameOpenFolder` (utility.js lines 526-563): prefix-rebase of
the whole snapshotted subtree of `oldPath`, returning the JS boolean
result together with the updated state. -/
def renameOpenFolder (s : State) (oldPath newPath : String) : Bool × State :=
  match aLookup s.nodesMap oldPath with
  | none => (false, s)
  | some nr =>
    let affected := collectSubtree s nr
    (true, affected.foldl (renameStep oldPath newPath nr) s)

/-- Embeds `addChildIfVisible` (utility.js lines 569-585). -/
def addChildIfVisible (s : State) (parentPath childPath childName ctype : String) :
    Bool × State :=
  if !(s.openFolders.contains parentPath) || !(aHas s.nodesMap parentPath) then
    (false, s)
  else if aHas s.nodesMap childPath then (false, s)
  else
    match aLookup s.nodesMap parentPath with
    | none => (false, s)
    | some pr =>
      match hGet s pr with
      | none => (false, s)
      | some pn =>
        let cr := s.heap.length
        let cn : Node :=
          { nodeName := childName, fullPath := childPath, type := ctype,
            children := [], id := childPath, isOpen := false,
            depth := pn.depth + 1, selected := false,
            parentId := some pn.id, isRoot := false }
        let s1 := { s with heap := s.heap ++ [cn] }
        let s2 := { s1 with nodesMap := aSet s1.nodesMap cn.id cr }
        let s3 := hSet s2 pr { pn with children := pn.children ++ [cr] }
        (true, { s3 with nodesData := s3.nodesData ++ [cr],
                         linksData := s3.linksData ++ [(pr, cr)] })

/-- Embeds `removePathIfPresent` (utility.js lines 587-594). -/
def removePathIfPresent (s : State) (absPath : String) : Bool × State :=
  match aLookup s.nodesMap absPath with
  | none => (false, s)
  | some r => (true, removeNodeAndDescendants s r)

/-- Embeds `renameFileInPlace` (utility.js lines 596-608). -/
def renameFileInPlace (s : State) (oldPath newPath : String) : Bool × State :=
  match aLookup s.nodesMap oldPath with
  | none => (false, s)
  | some r =>
    match hGet s r with
    | none => (false, s)
    | some node =>
      if node.type ≠ "file" then (false, s)
      else
        let s1 := { s with nodesMap := aDel s.nodesMap oldPath }
        let s2 := { s1 with
          selectedFiles := updateSetRename s1.selectedFiles oldPath newPath }
        let newName :=
          match (segsOf newPath).getLast? with
          | some nm => nm
          | none => node.nodeName
        let n2 := { node with id := newPath, fullPath := newPath,
                              nodeName := newName }
        let s3 := hSet s2 r n2
        (true, { s3 with nodesMap := aSet s3.nodesMap newPath r })

/-- A normalized filesystem change notification, as consumed by
`handleFsEvent`.  An absent `path` is modelled by `""` (JS falsy). -/
structure FsEvent where
  event : String
  path : String
  dest_path : Option String
  is_dir : Bool
  deriving Repr, DecidableEq

/-- JS truthiness of an optional string. -/
def optTruthy : Option String → Bool
  | none => false
  | some st => st ≠ ""

/-- The `refreshIfOpen` closure of `handleFsEvent` (lines 617-623). -/
def refreshIfOpen (s : State) (p : String) : State :=
  if p = "" then s
  else if s.openFolders.contains p then { s with requests := s.requests ++ [p] }
  else s

/-- Embeds `handleFsEvent` (utility.js lines 611-691): the surgical
event-reconciliation dispatch. -/
def handleFsEvent (s : State) (evt : FsEvent) : State :=
  let kind := evt.event
  let path := evt.path
  let isDir := evt.is_dir
  if path = "" && !(optTruthy evt.dest_path) then s
  else if kind = "created" && path ≠ "" then
    let parent := parentDir path
    let name := match (segsOf path).getLast? with
      | some nm => nm
      | none => ""
    let ctype := if isDir then "folder" else "file"
    let res := addChildIfVisible s parent path name ctype
    if res.1 then res.2
    else if res.2.openFolders.contains parent then
      { res.2 with requests := res.2.requests ++ [parent] }
    else res.2
  else if kind = "deleted" && path ≠ "" then
    let res := removePathIfPresent s path
    if res.1 then res.2
    else
      let parent := parentDir path
      if res.2.openFolders.contains parent then
        { res.2 with requests := res.2.requests ++ [parent] }
      else res.2
  else if kind = "moved" && isDir && path ≠ "" && optTruthy evt.dest_path then
    let dest := match evt.dest_path with
      | some d => d
      | none => ""
    let oldParent := parentDir path
    let newParent := parentDir dest
    if oldParent = newParent then
      if aHas s.nodesMap path then
        let res := renameOpenFolder s path dest
        refreshIfOpen res.2 oldParent
      else refreshIfOpen s oldParent
    else
      let s1 :=
        match aLookup s.nodesMap path with
        | some r => removeNodeAndDescendants s r
        | none => s
      refreshIfOpen (refreshIfOpen s1 oldParent) newParent
  else if kind = "moved" && !isDir && path ≠ "" && optTruthy evt.dest_path then
    let dest := match evt.dest_path with
      | some d => d
      | none => ""
    let oldParent := parentDir path
    let newParent := parentDir dest
    if oldParent = newParent then
      let res := renameFileInPlace s path dest
      refreshIfOpen res.2 oldParent
    else
      let res := removePathIfPresent s path
      let name := match (segsOf dest).getLast? with
        | some nm => nm
        | none => ""
      let res2 := addChildIfVisible res.2 newParent dest name "file"
      refreshIfOpen (refreshIfOpen res2.2 oldParent) newParent
  else if kind = "modified" && isDir then s
  else
    let s1 := refreshIfOpen s (parentDir path)
    match evt.dest_path with
    | none => s1
    | some d => refreshIfOpen s1 (parentDir d)

/-! ### Roots -/

/-- Embeds `handleRootAdded` (utility.js lines 324-335). -/
def handleRootAdded (s : State) (rootAbsPath : String) (rootName : Option String) :
    State :=
  let name :=
    match rootName with
    | some n => if n ≠ "" then n else basename rootAbsPath
    | none => basename rootAbsPath
  let key := norm rootAbsPath
  let s1 := { s with rootsMap := aSet s.rootsMap key (name, rootAbsPath) }
  if aHas s1.nodesMap rootAbsPath then s1
  else
    let r := s1.heap.length
    let rootNode : Node :=
      { nodeName := name, fullPath := rootAbsPath, type := "folder",
        children := [], id := rootAbsPath, isOpen := false, depth := 0,
        selected := false, parentId := none, isRoot := true }
    { s1 with heap := s1.heap ++ [rootNode],
              nodesData := s1.nodesData ++ [r],
              nodesMap := aSet s1.nodesMap rootAbsPath r }

/-- Embeds `handleRootRemoved` (utility.js lines 337-345). -/
def handleRootRemoved (s : State) (rootAbsPath : String) : State :=
  let s1 := { s with rootsMap := aDel s.rootsMap (norm rootAbsPath) }
  match aLookup s1.nodesMap rootAbsPath with
  | some r => removeNodeAndDescendants s1 r
  | none => s1

/-- Embeds `window.expandCollapsePath` (utility.js lines 167-171), the
path-keyed expand/collapse entry point. -/
def expandCollapsePath (s : State) (action : String) (path : String) : State :=
  match aLookup s.nodesMap path with
  | none => s
  | some r =>
    match hGet s r with
    | none => s
    | some n =>
      if n.type ≠ "folder" then s
      else if action = "expand" then expandFolder s r
      else collapseFolder s r

/-! ### Operations and reachability -/

/-- One unit of client-side work: a user gesture or an incoming message.
Lasso captures are identified by the references of the captured rendered
nodes; clicks by the clicked node's path. -/
inductive Op where
  | rootAdd (path : String) (name : Option String)
  | rootRemove (path : String)
  | expand (path : String)
  | collapse (path : String)
  | click (path : String)
  | lasso (rs : List Nat)
  | listing (dirPath : String) (children : List ChildEntry)
  | fsEvent (evt : FsEvent)
  deriving Repr, DecidableEq

/-- The transition function: each operation runs to completion before the
next is processed (single-threaded cooperative mutation). -/
def step (s : State) : Op → State
  | .rootAdd p nm => handleRootAdded s p nm
  | .rootRemove p => handleRootRemoved s p
  | .expand p => expandCollapsePath s "expand" p
  | .collapse p => expandCollapsePath s "collapse" p
  | .click p =>
    match aLookup s.nodesMap p with
    | some r => handleNodeClick s r
    | none => s
  | .lasso rs => handleLassoSelect s rs
  | .listing d cs => handleListing s d cs
  | .fsEvent e => handleFsEvent s e

/-- States reachable from the empty client by arbitrary operation
sequences with arbitrary message payloads. -/
inductive Reach : State → Prop where
  | init : Reach State.empty
  | next (s : State) (op : Op) : Reach s → Reach (step s op)

end GraphFS

namespace GraphFS

/-! ### Association-list and set lemmas -/

theorem aLookup_cons {β : Type} (a : String × β) (m : List (String × β))
    (k : String) :
    aLookup (a :: m) k = if a.1 = k then some a.2 else aLookup m k := by
  by_cases h : a.1 = k <;> simp [aLookup, List.find?, h]

theorem aLookup_mapReplace {β : Type} (m : List (String × β)) (k : String)
    (v : β) (k2 : String) (h : k2 ≠ k) :
    aLookup (m.map (fun e => if e.1 = k then (k, v) else e)) k2 =
      aLookup m k2 := by
  induction m with
  | nil => rfl
  | cons a m ih =>
    by_cases ha : a.1 = k
    · have hk : ¬ (k = k2) := fun h2 => h h2.symm
      have hak : ¬ (a.1 = k2) := by rw [ha]; exact hk
      simp [List.map_cons, ha, aLookup_cons, hk, hak, ih]
    · simp [List.map_cons, ha, aLookup_cons, ih]

theorem aLookup_mapReplace_self {β : Type} (m : List (String × β)) (k : String)
    (v : β) (h : aHas m k = true) :
    aLookup (m.map (fun e => if e.1 = k then (k, v) else e)) k = some v := by
  induction m with
  | nil => simp [aHas, aLookup] at h
  | cons a m ih =>
    by_cases ha : a.1 = k
    · simp [List.map_cons, ha, aLookup_cons]
    · have h2 : aHas m k = true := by
        simpa only [aHas, aLookup_cons, ha, if_false] using h
      simp [List.map_cons, ha, aLookup_cons, ih h2]

theorem aLookup_appendOne {β : Type} (m : List (String × β)) (k : String)
    (v : β) (k2 : String) (h : k2 ≠ k) :
    aLookup (m ++ [(k, v)]) k2 = aLookup m k2 := by
  induction m with
  | nil =>
    have hk : ¬ (k = k2) := fun h2 => h h2.symm
    simp [aLookup_cons, hk, aLookup]
  | cons a m ih =>
    by_cases ha : a.1 = k2 <;> simp [List.cons_append, aLookup_cons, ha, ih]

theorem aLookup_appendOne_self {β : Type} (m : List (String × β)) (k : String)
    (v : β) (h : aLookup m k = none) :
    aLookup (m ++ [(k, v)]) k = some v := by
  induction m with
  | nil => simp [aLookup_cons]
  | cons a m ih =>
    by_cases ha : a.1 = k
    · simp [aLookup_cons, ha] at h
    · simp only [aLookup_cons, ha, if_false] at h
      simp [List.cons_append, aLookup_cons, ha, ih h]

theorem aLookup_aSet_self {β : Type} (m : List (String × β)) (k : String)
    (v : β) : aLookup (aSet m k v) k = some v := by
  by_cases h : aHas m k = true
  · unfold aSet
    rw [if_pos h]
    exact aLookup_mapReplace_self m k v h
  · have h2 : aLookup m k = none := by
      cases hl : aLookup m k with
      | none => rfl
      | some v2 => exact absurd (by simp [aHas, hl]) h
    unfold aSet
    rw [if_neg h]
    exact aLookup_appendOne_self m k v h2

theorem aLookup_aSet_ne {β : Type} (m : List (String × β)) (k : String)
    (v : β) (k2 : String) (h : k2 ≠ k) :
    aLookup (aSet m k v) k2 = aLookup m k2 := by
  by_cases hk : aHas m k = true
  · unfold aSet
    rw [if_pos hk]
    exact aLookup_mapReplace m k v k2 h
  · unfold aSet
    rw [if_neg hk]
    exact aLookup_appendOne m k v k2 h

theorem aLookup_aDel_self {β : Type} (m : List (String × β)) (k : String) :
    aLookup (aDel m k) k = none := by
  induction m with
  | nil => rfl
  | cons a m ih =>
    by_cases ha : a.1 = k
    · simpa [aDel, List.filter_cons, ha] using ih
    · have hkeep : aDel (a :: m) k = a :: aDel m k := by
        simp [aDel, List.filter_cons, ha]
      rw [hkeep, aLookup_cons]
      simp only [ha, if_false]
      simpa [aDel] using ih

theorem aLookup_aDel_ne {β : Type} (m : List (String × β)) (k k2 : String)
    (h : k2 ≠ k) : aLookup (aDel m k) k2 = aLookup m k2 := by
  induction m with
  | nil => rfl
  | cons a m ih =>
    by_cases ha : a.1 = k
    · have hdrop : aDel (a :: m) k = aDel m k := by
        simp [aDel, List.filter_cons, ha]
      have hne : ¬ (a.1 = k2) := by rw [ha]; exact fun h2 => h h2.symm
      rw [hdrop]
      rw [show aDel m k = GraphFS.aDel m k from rfl] at ih
      rw [ih, aLookup_cons]
      simp [hne]
    · have hkeep : aDel (a :: m) k = a :: aDel m k := by
        simp [aDel, List.filter_cons, ha]
      rw [hkeep, aLookup_cons, aLookup_cons, ih]

theorem aHas_aSet_self {β : Type} (m : List (String × β)) (k : String)
    (v : β) : aHas (aSet m k v) k = true := by
  simp [aHas, aLookup_aSet_self]

theorem mem_sAdd (l : List String) (x y : String) :
    y ∈ sAdd l x ↔ y ∈ l ∨ y = x := by
  by_cases h : l.contains x
  · simp only [sAdd, h, if_true]
    constructor
    · exact fun hy => Or.inl hy
    · rintro (hy | rfl)
      · exact hy
      · simpa using h
  · simp only [sAdd, h, if_false, Bool.false_eq_true, List.mem_append,
      List.mem_singleton]

theorem mem_sDel (l : List String) (x y : String) :
    y ∈ sDel l x ↔ y ∈ l ∧ y ≠ x := by
  simp [sDel]

/-! ### Simple frame lemmas -/

theorem refreshIfOpen_core (s : State) (p : String) :
    (refreshIfOpen s p).heap = s.heap ∧
    (refreshIfOpen s p).nodesData = s.nodesData ∧
    (refreshIfOpen s p).linksData = s.linksData ∧
    (refreshIfOpen s p).nodesMap = s.nodesMap ∧
    (refreshIfOpen s p).selectedFiles = s.selectedFiles ∧
    (refreshIfOpen s p).openFolders = s.openFolders ∧
    (refreshIfOpen s p).rootsMap = s.rootsMap := by
  unfold refreshIfOpen
  split <;> simp_all
  split <;> simp_all

/-! ### Behaviour of addChildIfVisible -/

theorem addChildIfVisible_spec (s : State) (pp cp cn ct : String) :
    addChildIfVisible s pp cp cn ct = (false, s) ∨
    ((addChildIfVisible s pp cp cn ct).1 = true ∧
     aHas (addChildIfVisible s pp cp cn ct).2.nodesMap cp = true ∧
     (addChildIfVisible s pp cp cn ct).2.openFolders = s.openFolders ∧
     (addChildIfVisible s pp cp cn ct).2.requests = s.requests ∧
     (addChildIfVisible s pp cp cn ct).2.rootsMap = s.rootsMap) := by
  unfold addChildIfVisible
  split
  · exact Or.inl rfl
  · split
    · exact Or.inl rfl
    · split
      · exact Or.inl rfl
      · split
        · exact Or.inl rfl
        · refine Or.inr ⟨rfl, ?_, rfl, rfl, rfl⟩
          simp only [hSet]
          exact aHas_aSet_self _ _ _

theorem addChildIfVisible_already (s : State) (pp cp cn ct : String)
    (h : aHas s.nodesMap cp = true) :
    addChildIfVisible s pp cp cn ct = (false, s) := by
  unfold addChildIfVisible
  split
  · rfl
  · simp [h]

theorem addChildIfVisible_requests (s : State) (q : List String)
    (pp cp cn ct : String) :
    addChildIfVisible { s with requests := q } pp cp cn ct =
      ((addChildIfVisible s pp cp cn ct).1,
       { (addChildIfVisible s pp cp cn ct).2 with requests := q }) := by
  by_cases h1 : pp ∉ s.openFolders ∨ aHas s.nodesMap pp = false
  · simp [addChildIfVisible, h1]
  · by_cases h2 : aHas s.nodesMap cp = true
    · simp [addChildIfVisible, h1, h2]
    · cases hl : aLookup s.nodesMap pp with
      | none => simp [addChildIfVisible, h1, h2, hl]
      | some pr =>
        cases hg : s.heap[pr]? with
        | none => simp [addChildIfVisible, hGet, h1, h2, hl, hg, hSet]
        | some pn => simp [addChildIfVisible, hGet, h1, h2, hl, hg, hSet]

/-- C9: a `modified` event whose subject is a directory is ignored: the
state (node table, OpenSet, SelectedSet, edge list, heap) is unchanged and
no listing request is issued. -/
theorem claim_c9_modified_dir_ignored (s : State) (p : String)
    (d : Option String) :
    handleFsEvent s ⟨"modified", p, d, true⟩ = s := by
  unfold handleFsEvent
  simp

/-- C1: the staleness guard of `handleListing`: if the listed directory is
not in OpenSet or has no entry in the node table, the listing response is
a complete no-op. -/
theorem claim_c1_stale_listing_noop (s : State) (dirPath : String)
    (children : List ChildEntry)
    (h : s.openFolders.contains dirPath = false ∨
         aHas s.nodesMap dirPath = false) :
    handleListing s dirPath children = s := by
  have hc : (!(s.openFolders.contains dirPath) || !(aHas s.nodesMap dirPath))
      = true := by
    rcases h with h | h
    · simp only [Bool.or_eq_true, Bool.not_eq_true']
      exact Or.inl h
    · simp only [Bool.or_eq_true, Bool.not_eq_true']
      exact Or.inr h
  unfold handleListing
  rw [if_pos hc]

def staleScene1 : State := step State.empty (Op.rootAdd "/a" none)

def staleScene2 : State := step staleScene1 (Op.expand "/a")

def staleScene3 : State := step staleScene2 (Op.collapse "/a")

/-- Witness for C1: the listing response for `/a` (requested on expand)
arrives after `/a` was collapsed, and is discarded. -/
theorem claim_c1_stale_listing_noop_witness :
    (staleScene3.openFolders.contains "/a" = false ∨
     aHas staleScene3.nodesMap "/a" = false) ∧
    handleListing staleScene3 "/a" [⟨"b", "/a/b", "folder"⟩] = staleScene3 :=
  ⟨Or.inl (by decide),
   claim_c1_stale_listing_noop staleScene3 "/a" [⟨"b", "/a/b", "folder"⟩]
     (Or.inl (by decide))⟩

/-- Two states agree on everything except the request log: same heap,
nodesData, edge list, node table, SelectedSet, OpenSet and roots. -/
def sameCore (s t : State) : Prop :=
  s.heap = t.heap ∧ s.nodesData = t.nodesData ∧ s.linksData = t.linksData ∧
  s.nodesMap = t.nodesMap ∧ s.selectedFiles = t.selectedFiles ∧
  s.openFolders = t.openFolders ∧ s.rootsMap = t.rootsMap

theorem sameCore_refl (s : State) : sameCore s s :=
  ⟨rfl, rfl, rfl, rfl, rfl, rfl, rfl⟩

theorem sameCore_req (s : State) (q : List String) :
    sameCore { s with requests := q } s :=
  ⟨rfl, rfl, rfl, rfl, rfl, rfl, rfl⟩

theorem sameCore_trans (a b c : State) (h1 : sameCore a b) (h2 : sameCore b c) :
    sameCore a c := by
  obtain ⟨x1, x2, x3, x4, x5, x6, x7⟩ := h1
  obtain ⟨y1, y2, y3, y4, y5, y6, y7⟩ := h2
  exact ⟨x1.trans y1, x2.trans y2, x3.trans y3, x4.trans y4, x5.trans y5,
    x6.trans y6, x7.trans y7⟩

theorem refreshIfOpen_req (s : State) (p : String) :
    ∃ q, refreshIfOpen s p = { s with requests := q } := by
  unfold refreshIfOpen
  split
  · exact ⟨s.requests, rfl⟩
  · split
    · exact ⟨s.requests ++ [p], rfl⟩
    · exact ⟨s.requests, rfl⟩

theorem refresh_sameCore (s : State) (p : String) :
    sameCore (refreshIfOpen s p) s := by
  obtain ⟨q, h⟩ := refreshIfOpen_req s p
  rw [h]
  exact sameCore_req s q

theorem handleFsEvent_created_eq (t : State) (p : String) (d : Option String)
    (b : Bool) (hp : ¬ p = "") :
    handleFsEvent t ⟨"created", p, d, b⟩ =
      (let res := addChildIfVisible t (parentDir p) p
        (match (segsOf p).getLast? with
         | some nm => nm
         | none => "")
        (if b then "folder" else "file")
       if res.1 = true then res.2
       else if res.2.openFolders.contains (parentDir p) = true then
         { res.2 with requests := res.2.requests ++ [parentDir p] }
       else res.2) := by
  unfold handleFsEvent
  simp [hp]

/-- C5: applying the same `created` event twice yields the same
materialized state (heap, nodesData, edge list, node table, SelectedSet,
OpenSet, roots) as applying it once; the second application can at most
append a refresh listing request. -/
theorem claim_c5_created_idempotent (s : State) (p : String)
    (d : Option String) (b : Bool) :
    sameCore
      (handleFsEvent (handleFsEvent s ⟨"created", p, d, b⟩)
        ⟨"created", p, d, b⟩)
      (handleFsEvent s ⟨"created", p, d, b⟩) := by
  by_cases hp : p = ""
  · subst hp
    by_cases hd : optTruthy d = true
    · cases d with
      | none => simp [optTruthy] at hd
      | some dd =>
        have hdd : ¬ dd = "" := by simpa [optTruthy] using hd
        have hred : ∀ t : State, handleFsEvent t ⟨"created", "", some dd, b⟩ =
            refreshIfOpen (refreshIfOpen t (parentDir "")) (parentDir dd) := by
          intro t
          unfold handleFsEvent
          simp [optTruthy, hdd]
        rw [hred]
        exact sameCore_trans _ _ _ (refresh_sameCore _ _) (refresh_sameCore _ _)
    · have hred : ∀ t : State, handleFsEvent t ⟨"created", "", d, b⟩ = t := by
        intro t
        unfold handleFsEvent
        simp [hd]
      rw [hred]
      exact sameCore_refl _
  · rcases addChildIfVisible_spec s (parentDir p) p
        (match (segsOf p).getLast? with
         | some nm => nm
         | none => "")
        (if b then "folder" else "file") with hfail | hsucc
    · by_cases hc : parentDir p ∈ s.openFolders
      · have hs1 : handleFsEvent s ⟨"created", p, d, b⟩ =
            { s with requests := s.requests ++ [parentDir p] } := by
          rw [handleFsEvent_created_eq s p d b hp]
          simp only [hfail]
          simp [hc]
        have hsecond : addChildIfVisible
            { s with requests := s.requests ++ [parentDir p] } (parentDir p) p
            (match (segsOf p).getLast? with
             | some nm => nm
             | none => "")
            (if b then "folder" else "file") =
            (false, { s with requests := s.requests ++ [parentDir p] }) := by
          rw [addChildIfVisible_requests, hfail]
        rw [hs1, handleFsEvent_created_eq _ p d b hp]
        simp only [hsecond]
        simp only [Bool.false_eq_true, if_false]
        split
        · exact sameCore_req _ _
        · exact sameCore_refl _
      · have hs1 : handleFsEvent s ⟨"created", p, d, b⟩ = s := by
          rw [handleFsEvent_created_eq s p d b hp]
          simp only [hfail]
          simp [hc]
        rw [hs1, handleFsEvent_created_eq _ p d b hp]
        simp only [hfail]
        simp only [Bool.false_eq_true, if_false]
        split
        · exact sameCore_req _ _
        · exact sameCore_refl _
    · have hs1 : handleFsEvent s ⟨"created", p, d, b⟩ =
          (addChildIfVisible s (parentDir p) p
            (match (segsOf p).getLast? with
             | some nm => nm
             | none => "")
            (if b then "folder" else "file")).2 := by
        rw [handleFsEvent_created_eq s p d b hp]
        simp only [hsucc.1, if_true]
      have hsecond := addChildIfVisible_already
        (handleFsEvent s ⟨"created", p, d, b⟩) (parentDir p) p
        (match (segsOf p).getLast? with
         | some nm => nm
         | none => "")
        (if b then "folder" else "file")
        (by rw [hs1]; exact hsucc.2.1)
      rw [handleFsEvent_created_eq _ p d b hp]
      simp only [hsecond]
      simp only [Bool.false_eq_true, if_false]
      split
      · exact sameCore_req _ _
      · exact sameCore_refl _

/-! ### Heap lemmas -/

theorem hGet_hSet_ne (s : State) (r : Nat) (n : Node) (r2 : Nat) (h : r2 ≠ r) :
    hGet (hSet s r n) r2 = hGet s r2 := by
  simp [hGet, hSet, List.getElem?_set_ne (fun h2 => h h2.symm)]

theorem hGet_hSet_self (s : State) (r : Nat) (n : Node)
    (h : r < s.heap.length) : hGet (hSet s r n) r = some n := by
  simp [hGet, hSet, List.getElem?_set_self h]

theorem hGet_isSome_of (s : State) (r : Nat) (n : Node)
    (h : hGet s r = some n) : r < s.heap.length := by
  simp only [hGet, List.get?_eq_getElem?] at h
  exact (List.getElem?_eq_some_iff.mp h).1

/-! ### Behaviour of detachFromParent -/

theorem detachFromParent_fields (s : State) (node : Node) :
    (detachFromParent s node).nodesData = s.nodesData ∧
    (detachFromParent s node).linksData = s.linksData ∧
    (detachFromParent s node).nodesMap = s.nodesMap ∧
    (detachFromParent s node).selectedFiles = s.selectedFiles ∧
    (detachFromParent s node).openFolders = s.openFolders ∧
    (detachFromParent s node).rootsMap = s.rootsMap ∧
    (detachFromParent s node).requests = s.requests := by
  unfold detachFromParent
  rcases node.parentId with _ | pid
  · exact ⟨rfl, rfl, rfl, rfl, rfl, rfl, rfl⟩
  · dsimp only []
    split
    · cases aLookup s.nodesMap pid with
      | none => exact ⟨rfl, rfl, rfl, rfl, rfl, rfl, rfl⟩
      | some pr =>
        dsimp only []
        cases hGet s pr with
        | none => exact ⟨rfl, rfl, rfl, rfl, rfl, rfl, rfl⟩
        | some pn => exact ⟨rfl, rfl, rfl, rfl, rfl, rfl, rfl⟩
    · exact ⟨rfl, rfl, rfl, rfl, rfl, rfl, rfl⟩

theorem detach_hGet_cases (s : State) (node : Node) (r2 : Nat) :
    hGet (detachFromParent s node) r2 = hGet s r2 ∨
    ∃ pn, hGet s r2 = some pn ∧
      hGet (detachFromParent s node) r2 =
        some { pn with children :=
          pn.children.filter (fun ch => idOf s ch ≠ node.id) } := by
  unfold detachFromParent
  rcases node.parentId with _ | pid
  · exact Or.inl rfl
  · dsimp only []
    split
    · cases hl : aLookup s.nodesMap pid with
      | none => exact Or.inl rfl
      | some pr =>
        dsimp only []
        cases hp : hGet s pr with
        | none => exact Or.inl rfl
        | some pn =>
          by_cases hr : r2 = pr
          · subst hr
            refine Or.inr ⟨pn, hp, ?_⟩
            exact hGet_hSet_self s r2 _ (hGet_isSome_of s r2 pn hp)
          · exact Or.inl (hGet_hSet_ne s pr _ r2 hr)
    · exact Or.inl rfl

theorem detach_heap_length (s : State) (node : Node) :
    (detachFromParent s node).heap.length = s.heap.length := by
  unfold detachFromParent
  rcases node.parentId with _ | pid
  · rfl
  · dsimp only []
    split
    · cases aLookup s.nodesMap pid with
      | none => rfl
      | some pr =>
        dsimp only []
        cases hGet s pr with
        | none => rfl
        | some pn => simp [hSet]
    · rfl

theorem detach_childrenOf_nil (s : State) (node : Node) (r : Nat)
    (h : childrenOf s r = []) :
    childrenOf (detachFromParent s node) r = [] := by
  rcases detach_hGet_cases s node r with hc | ⟨pn, h1, h2⟩
  · simpa [childrenOf, hc] using h
  · simp only [childrenOf, h1] at h
    simp [childrenOf, h2, h]

/-! ### Removal of a childless node -/

theorem removeNodeAndDescendants_file (s : State) (r : Nat) (nd : Node)
    (hg : hGet s r = some nd) (hch : nd.children = [])
    (hm : aLookup s.nodesMap nd.id = some r) :
    (removeNodeAndDescendants s r).nodesMap = aDel s.nodesMap nd.id ∧
    (removeNodeAndDescendants s r).selectedFiles = sDel s.selectedFiles nd.id ∧
    (removeNodeAndDescendants s r).openFolders =
      (if nd.type = "folder" then sDel s.openFolders nd.id
       else s.openFolders) ∧
    (removeNodeAndDescendants s r).requests = s.requests ∧
    (removeNodeAndDescendants s r).rootsMap = s.rootsMap ∧
    (removeNodeAndDescendants s r).heap = (detachFromParent s nd).heap := by
  obtain ⟨hd1, hd2, hd3, hd4, hd5, hd6, hd7⟩ := detachFromParent_fields s nd
  have hchild1 : childrenOf (detachFromParent s nd) r = [] :=
    detach_childrenOf_nil s nd r (by simp [childrenOf, hg, hch])
  have hdesc : getDescendants (detachFromParent s nd) r = [] := by
    unfold getDescendants
    rw [hchild1]
    simp [descendStep]
  have htype : (match hGet (detachFromParent s nd) r with
      | some n => n.type = "folder"
      | none => false) = (decide (nd.type = "folder")) := by
    rcases detach_hGet_cases s nd r with hc | ⟨pn, h1, h2⟩
    · rw [hc, hg]
    · rw [h2]
      have : pn = nd := by
        rw [h1] at hg
        exact Option.some_injective _ hg
      subst this
      rfl
  have hids : removalIds s nd r = [nd.id] := by
    unfold removalIds
    rw [hdesc]
    rfl
  unfold removeNodeAndDescendants
  rw [hg]
  simp only [hids, List.foldl]
  unfold removeIdStep
  simp only [hd3, hm, htype]
  by_cases ht : nd.type = "folder" <;>
    simp [ht, hd1, hd2, hd3, hd4, hd5, hd6, hd7, hSet]

/-! ### Success characterization of addChildIfVisible -/

theorem addChildIfVisible_success_proj (s : State) (pp cp cn ct : String)
    (pr : Nat) (pn : Node)
    (h1 : pp ∈ s.openFolders) (h2 : aLookup s.nodesMap pp = some pr)
    (h3 : aLookup s.nodesMap cp = none) (h4 : hGet s pr = some pn) :
    (addChildIfVisible s pp cp cn ct).1 = true ∧
    (addChildIfVisible s pp cp cn ct).2.nodesMap =
      aSet s.nodesMap cp s.heap.length ∧
    (addChildIfVisible s pp cp cn ct).2.selectedFiles = s.selectedFiles ∧
    (addChildIfVisible s pp cp cn ct).2.openFolders = s.openFolders ∧
    (addChildIfVisible s pp cp cn ct).2.requests = s.requests ∧
    hGet (addChildIfVisible s pp cp cn ct).2 s.heap.length =
      some { nodeName := cn, fullPath := cp, type := ct, children := [],
             id := cp, isOpen := false, depth := pn.depth + 1,
             selected := false, parentId := some pn.id, isRoot := false } := by
  have hpr : pr < s.heap.length := hGet_isSome_of s pr pn h4
  have hguard : (!(s.openFolders.contains pp) || !(aHas s.nodesMap pp)) =
      false := by
    simp [h1, aHas, h2]
  have hhas : aHas s.nodesMap cp = false := by
    simp [aHas, h3]
  unfold addChildIfVisible
  rw [hguard]
  simp only [Bool.false_eq_true, if_false, hhas, h2, h4]
  refine ⟨by trivial, by trivial, by trivial, by trivial, by trivial, ?_⟩
  simp only [hGet, hSet, List.get?_eq_getElem?]
  rw [List.getElem?_set_ne (Nat.ne_of_lt hpr)]
  simp [List.getElem?_concat_length]

/-! ### C6 scenario -/

def moveScene1 : State := step State.empty (Op.rootAdd "/a" none)

def moveScene2 : State := step moveScene1 (Op.expand "/a")

def moveScene3 : State :=
  step moveScene2 (Op.listing "/a" [⟨"x.txt", "/a/x.txt", "file"⟩])

def moveScene4 : State := step moveScene3 (Op.rootAdd "/z" none)

def moveScene5 : State := step moveScene4 (Op.expand "/z")

def moveScene6 : State := step moveScene5 (Op.listing "/z" [])

def moveScene7 : State := step moveScene6 (Op.click "/a/x.txt")

def moveScene8 : State :=
  step moveScene7 (Op.fsEvent ⟨"moved", "/a/x.txt", some "/z/x.txt", false⟩)

/-- Counterexample to C6 as stated: in the reachable state where `/a` and
`/z` are open and materialized and the selected file `/a/x.txt` receives a
cross-parent `moved` event to `/z/x.txt`, the old node is gone and a new
node exists at `/z/x.txt`, but the selection is NOT preserved: the new
path is not in SelectedSet and the new node is unselected. -/
theorem claim_c6_counterexample :
    Reach moveScene8 ∧
    "/a/x.txt" ∈ moveScene7.selectedFiles ∧
    "/a" ∈ moveScene7.openFolders ∧ "/z" ∈ moveScene7.openFolders ∧
    aHas moveScene7.nodesMap "/a" = true ∧
    aHas moveScene7.nodesMap "/z" = true ∧
    moveScene8 =
      handleFsEvent moveScene7 ⟨"moved", "/a/x.txt", some "/z/x.txt", false⟩ ∧
    aLookup moveScene8.nodesMap "/a/x.txt" = none ∧
    (aLookup moveScene8.nodesMap "/z/x.txt").isSome = true ∧
    "/z/x.txt" ∉ moveScene8.selectedFiles ∧
    ((aLookup moveScene8.nodesMap "/z/x.txt").bind
      (hGet moveScene8)).map Node.selected = some false :=
  ⟨Reach.next _ _ (Reach.next _ _ (Reach.next _ _ (Reach.next _ _
    (Reach.next _ _ (Reach.next _ _ (Reach.next _ _ (Reach.next _ _
      Reach.init))))))),
   by decide, by decide, by decide, by decide, by decide, rfl,
   by decide, by decide, by decide, by decide⟩

/-- C6 (amended): for a cross-parent moved-file event
`/a/x.txt → /z/x.txt` with both parents open and materialized and the
destination fresh, the final state has no node at `/a/x.txt` and a node at
`/z/x.txt`; however a previous selection of `/a/x.txt` is dropped: neither
path is in SelectedSet afterwards and the new node is unselected. -/
theorem claim_c6_cross_parent_move (s : State) (r rz : Nat) (nd : Node)
    (hm : aLookup s.nodesMap "/a/x.txt" = some r)
    (hg : hGet s r = some nd) (hid : nd.id = "/a/x.txt")
    (hch : nd.children = [])
    (hao : "/a" ∈ s.openFolders) (ham : aHas s.nodesMap "/a" = true)
    (hza : "/z" ∈ s.openFolders)
    (hzm : aLookup s.nodesMap "/z" = some rz)
    (hzs : (hGet s rz).isSome = true)
    (hdest : aLookup s.nodesMap "/z/x.txt" = none)
    (hdsel : "/z/x.txt" ∉ s.selectedFiles) :
    aLookup (handleFsEvent s
      ⟨"moved", "/a/x.txt", some "/z/x.txt", false⟩).nodesMap "/a/x.txt" =
        none ∧
    (aLookup (handleFsEvent s
      ⟨"moved", "/a/x.txt", some "/z/x.txt", false⟩).nodesMap
        "/z/x.txt").isSome = true ∧
    "/a/x.txt" ∉ (handleFsEvent s
      ⟨"moved", "/a/x.txt", some "/z/x.txt", false⟩).selectedFiles ∧
    "/z/x.txt" ∉ (handleFsEvent s
      ⟨"moved", "/a/x.txt", some "/z/x.txt", false⟩).selectedFiles ∧
    ((aLookup (handleFsEvent s
        ⟨"moved", "/a/x.txt", some "/z/x.txt", false⟩).nodesMap
        "/z/x.txt").bind
      (hGet (handleFsEvent s
        ⟨"moved", "/a/x.txt", some "/z/x.txt", false⟩))).map Node.selected =
      some false := by
  have hpd1 : parentDir "/a/x.txt" = "/a" := by decide
  have hpd2 : parentDir "/z/x.txt" = "/z" := by decide
  have hseg : (segsOf "/z/x.txt").getLast? = some "x.txt" := by decide
  have hred : handleFsEvent s ⟨"moved", "/a/x.txt", some "/z/x.txt", false⟩ =
      refreshIfOpen (refreshIfOpen
        (addChildIfVisible (removePathIfPresent s "/a/x.txt").2
          "/z" "/z/x.txt" "x.txt" "file").2 "/a") "/z" := by
    unfold handleFsEvent
    simp [hpd1, hpd2, hseg, optTruthy]
  have hrem : removePathIfPresent s "/a/x.txt" =
      (true, removeNodeAndDescendants s r) := by
    unfold removePathIfPresent
    rw [hm]
  have hm2 : aLookup s.nodesMap nd.id = some r := by rw [hid]; exact hm
  obtain ⟨p1, p2, p3, p4, p5, p6⟩ :=
    removeNodeAndDescendants_file s r nd hg hch hm2
  rw [hid] at p1 p2 p3
  have hno1 : ("/z" : String) ≠ "/a/x.txt" := by decide
  have hno2 : ("/z/x.txt" : String) ≠ "/a/x.txt" := by decide
  have hno3 : ("/a/x.txt" : String) ≠ "/z/x.txt" := by decide
  obtain ⟨nz, hnz⟩ := Option.isSome_iff_exists.mp hzs
  have hz1 : ∃ pnz, hGet (removeNodeAndDescendants s r) rz = some pnz := by
    have hh : hGet (removeNodeAndDescendants s r) rz =
        hGet (detachFromParent s nd) rz := by
      simp only [hGet, p6]
    rcases detach_hGet_cases s nd rz with hc | ⟨pn0, he1, he2⟩
    · exact ⟨nz, by rw [hh, hc, hnz]⟩
    · exact ⟨_, by rw [hh, he2]⟩
  obtain ⟨pnz, hpnz⟩ := hz1
  have hzopen : "/z" ∈ (removeNodeAndDescendants s r).openFolders := by
    rw [p3]
    split
    · exact (mem_sDel _ _ _).mpr ⟨hza, hno1⟩
    · exact hza
  have hzlook : aLookup (removeNodeAndDescendants s r).nodesMap "/z" =
      some rz := by
    rw [p1, aLookup_aDel_ne _ _ _ hno1]
    exact hzm
  have hdlook : aLookup (removeNodeAndDescendants s r).nodesMap "/z/x.txt" =
      none := by
    rw [p1, aLookup_aDel_ne _ _ _ hno2]
    exact hdest
  obtain ⟨q1, q2, q3, q4, q5, q6⟩ :=
    addChildIfVisible_success_proj (removeNodeAndDescendants s r)
      "/z" "/z/x.txt" "x.txt" "file" rz pnz hzopen hzlook hdlook hpnz
  obtain ⟨qq1, e1⟩ := refreshIfOpen_req
    (addChildIfVisible (removePathIfPresent s "/a/x.txt").2
      "/z" "/z/x.txt" "x.txt" "file").2 "/a"
  obtain ⟨qq2, e2⟩ := refreshIfOpen_req (refreshIfOpen
    (addChildIfVisible (removePathIfPresent s "/a/x.txt").2
      "/z" "/z/x.txt" "x.txt" "file").2 "/a") "/z"
  have hfin : handleFsEvent s ⟨"moved", "/a/x.txt", some "/z/x.txt", false⟩ =
      { (addChildIfVisible (removePathIfPresent s "/a/x.txt").2
          "/z" "/z/x.txt" "x.txt" "file").2 with requests := qq2 } := by
    rw [hred, e2, e1]
  rw [hfin]
  simp only [hrem, Prod.snd]
  refine ⟨?_, ?_, ?_, ?_, ?_⟩
  · show aLookup (addChildIfVisible (removeNodeAndDescendants s r)
      "/z" "/z/x.txt" "x.txt" "file").2.nodesMap "/a/x.txt" = none
    rw [q2, aLookup_aSet_ne _ _ _ _ hno3, p1, aLookup_aDel_self]
  · show (aLookup (addChildIfVisible (removeNodeAndDescendants s r)
      "/z" "/z/x.txt" "x.txt" "file").2.nodesMap "/z/x.txt").isSome = true
    rw [q2, aLookup_aSet_self]
    rfl
  · show "/a/x.txt" ∉ (addChildIfVisible (removeNodeAndDescendants s r)
      "/z" "/z/x.txt" "x.txt" "file").2.selectedFiles
    rw [q3, p2]
    intro hmem
    exact ((mem_sDel _ _ _).mp hmem).2 rfl
  · show "/z/x.txt" ∉ (addChildIfVisible (removeNodeAndDescendants s r)
      "/z" "/z/x.txt" "x.txt" "file").2.selectedFiles
    rw [q3, p2]
    intro hmem
    exact hdsel ((mem_sDel _ _ _).mp hmem).1
  · show ((aLookup (addChildIfVisible (removeNodeAndDescendants s r)
        "/z" "/z/x.txt" "x.txt" "file").2.nodesMap "/z/x.txt").bind
        (hGet { (addChildIfVisible (removeNodeAndDescendants s r)
          "/z" "/z/x.txt" "x.txt" "file").2 with
            requests := qq2 })).map Node.selected = some false
    rw [q2, aLookup_aSet_self]
    have h6b : hGet { (addChildIfVisible (removeNodeAndDescendants s r)
        "/z" "/z/x.txt" "x.txt" "file").2 with requests := qq2 }
        (removeNodeAndDescendants s r).heap.length =
        some { nodeName := "x.txt", fullPath := "/z/x.txt", type := "file",
               children := [], id := "/z/x.txt", isOpen := false,
               depth := pnz.depth + 1, selected := false,
               parentId := some pnz.id, isRoot := false } := q6
    simp [h6b]

/-- Witness for C6: the amended theorem instantiated at the concrete
scenario state, with every hypothesis discharged by evaluation. -/
theorem claim_c6_cross_parent_move_witness :
    "/a/x.txt" ∈ moveScene7.selectedFiles ∧
    aLookup (handleFsEvent moveScene7
      ⟨"moved", "/a/x.txt", some "/z/x.txt", false⟩).nodesMap "/a/x.txt" =
        none ∧
    (aLookup (handleFsEvent moveScene7
      ⟨"moved", "/a/x.txt", some "/z/x.txt", false⟩).nodesMap
        "/z/x.txt").isSome = true ∧
    "/z/x.txt" ∉ (handleFsEvent moveScene7
      ⟨"moved", "/a/x.txt", some "/z/x.txt", false⟩).selectedFiles := by
  have h := claim_c6_cross_parent_move moveScene7 1 2
    { nodeName := "x.txt", fullPath := "/a/x.txt", type := "file",
      children := [], id := "/a/x.txt", isOpen := false, depth := 1,
      selected := true, parentId := some "/a", isRoot := false }
    (by decide) (by decide) (by decide) (by decide) (by decide) (by decide)
    (by decide) (by decide) (by decide) (by decide) (by decide)
  exact ⟨by decide, h.1, h.2.1, h.2.2.2.1⟩

/-! ### Behaviour of the eviction loop -/

theorem removeIdStep_frame (st : State) (did : String) :
    (removeIdStep st did).heap = st.heap ∧
    (removeIdStep st did).nodesData = st.nodesData ∧
    (removeIdStep st did).linksData = st.linksData ∧
    (removeIdStep st did).requests = st.requests ∧
    (removeIdStep st did).rootsMap = st.rootsMap := by
  unfold removeIdStep
  cases aLookup st.nodesMap did with
  | none => exact ⟨rfl, rfl, rfl, rfl, rfl⟩
  | some nr =>
    dsimp only []
    split <;> exact ⟨rfl, rfl, rfl, rfl, rfl⟩

theorem foldRemove_frame (D : List String) (st : State) :
    ((D.foldl removeIdStep st).heap = st.heap ∧
     (D.foldl removeIdStep st).nodesData = st.nodesData ∧
     (D.foldl removeIdStep st).linksData = st.linksData ∧
     (D.foldl removeIdStep st).requests = st.requests ∧
     (D.foldl removeIdStep st).rootsMap = st.rootsMap) := by
  induction D generalizing st with
  | nil => exact ⟨rfl, rfl, rfl, rfl, rfl⟩
  | cons a D ih =>
    simp only [List.foldl_cons]
    obtain ⟨f1, f2, f3, f4, f5⟩ := removeIdStep_frame st a
    obtain ⟨g1, g2, g3, g4, g5⟩ := ih (removeIdStep st a)
    exact ⟨g1.trans f1, g2.trans f2, g3.trans f3, g4.trans f4, g5.trans f5⟩

theorem removeIdStep_lookup (st : State) (did k : String) :
    aLookup (removeIdStep st did).nodesMap k =
      if k = did then none else aLookup st.nodesMap k := by
  unfold removeIdStep
  cases hl : aLookup st.nodesMap did with
  | none =>
    by_cases hk : k = did
    · subst hk
      simp [hl]
    · simp [hk]
  | some nr =>
    dsimp only []
    by_cases hk : k = did
    · subst hk
      split <;> simp [aLookup_aDel_self]
    · split <;> simp [aLookup_aDel_ne _ _ _ hk, hk]

theorem foldRemove_lookup (D : List String) (st : State) (k : String) :
    aLookup (D.foldl removeIdStep st).nodesMap k =
      if k ∈ D then none else aLookup st.nodesMap k := by
  induction D generalizing st with
  | nil => simp
  | cons a D ih =>
    simp only [List.foldl_cons]
    rw [ih]
    by_cases hk : k ∈ D
    · simp [hk]
    · by_cases hd : k = a
      · subst hd
        simp [hk, removeIdStep_lookup]
      · simp [hk, hd, removeIdStep_lookup]

theorem removeIdStep_selected_mono (st : State) (did x : String)
    (h : x ∉ st.selectedFiles) : x ∉ (removeIdStep st did).selectedFiles := by
  unfold removeIdStep
  cases aLookup st.nodesMap did with
  | none => exact h
  | some nr =>
    dsimp only []
    split
    · intro hmem
      exact h ((mem_sDel _ _ _).mp hmem).1
    · intro hmem
      exact h ((mem_sDel _ _ _).mp hmem).1

theorem removeIdStep_selected_kill (st : State) (did : String)
    (h : aHas st.nodesMap did = true) :
    did ∉ (removeIdStep st did).selectedFiles := by
  unfold removeIdStep
  cases hl : aLookup st.nodesMap did with
  | none => simp [aHas, hl] at h
  | some nr =>
    dsimp only []
    split
    · intro hmem
      exact ((mem_sDel _ _ _).mp hmem).2 rfl
    · intro hmem
      exact ((mem_sDel _ _ _).mp hmem).2 rfl

theorem foldRemove_selected_mono (D : List String) (st : State) (x : String)
    (h : x ∉ st.selectedFiles) :
    x ∉ (D.foldl removeIdStep st).selectedFiles := by
  induction D generalizing st with
  | nil => exact h
  | cons a D ih =>
    simp only [List.foldl_cons]
    exact ih _ (removeIdStep_selected_mono st a x h)

theorem foldRemove_selected (D : List String) (st : State) (d : String)
    (hd : d ∈ D) (hnd : D.Nodup) (hm : aHas st.nodesMap d = true) :
    d ∉ (D.foldl removeIdStep st).selectedFiles := by
  induction D generalizing st with
  | nil => cases hd
  | cons a D ih =>
    simp only [List.foldl_cons]
    rcases List.mem_cons.mp hd with rfl | hd2
    · exact foldRemove_selected_mono D _ d (removeIdStep_selected_kill st d hm)
    · have hne : d ≠ a := by
        intro h
        subst h
        exact (List.nodup_cons.mp hnd).1 hd2
      have hm2 : aHas (removeIdStep st a).nodesMap d = true := by
        simp only [aHas, removeIdStep_lookup, hne, if_false]
        exact hm
      exact ih (removeIdStep st a) hd2 (List.nodup_cons.mp hnd).2 hm2

theorem removeIdStep_open_mono (st : State) (did x : String)
    (h : x ∉ st.openFolders) : x ∉ (removeIdStep st did).openFolders := by
  unfold removeIdStep
  cases aLookup st.nodesMap did with
  | none => exact h
  | some nr =>
    dsimp only []
    split
    · intro hmem
      exact h ((mem_sDel _ _ _).mp hmem).1
    · exact h

theorem removeIdStep_open_kill (st : State) (did : String) (nr : Nat)
    (hl : aLookup st.nodesMap did = some nr)
    (ht : (hGet st nr).map Node.type = some "folder") :
    did ∉ (removeIdStep st did).openFolders := by
  unfold removeIdStep
  rw [hl]
  cases hg : hGet st nr with
  | none => simp [hg] at ht
  | some n =>
    have hty : n.type = "folder" := by
      simp [hg] at ht
      exact ht
    dsimp only []
    rw [hg]
    simp [hty, sDel]

theorem foldRemove_open_mono (D : List String) (st : State) (x : String)
    (h : x ∉ st.openFolders) :
    x ∉ (D.foldl removeIdStep st).openFolders := by
  induction D generalizing st with
  | nil => exact h
  | cons a D ih =>
    simp only [List.foldl_cons]
    exact ih _ (removeIdStep_open_mono st a x h)

theorem foldRemove_open (D : List String) (st : State) (d : String)
    (hd : d ∈ D) (hnd : D.Nodup) (nr : Nat)
    (hl : aLookup st.nodesMap d = some nr)
    (ht : (hGet st nr).map Node.type = some "folder") :
    d ∉ (D.foldl removeIdStep st).openFolders := by
  induction D generalizing st with
  | nil => cases hd
  | cons a D ih =>
    simp only [List.foldl_cons]
    rcases List.mem_cons.mp hd with rfl | hd2
    · exact foldRemove_open_mono D _ d (removeIdStep_open_kill st d nr hl ht)
    · have hne : d ≠ a := by
        intro h
        subst h
        exact (List.nodup_cons.mp hnd).1 hd2
      have hl2 : aLookup (removeIdStep st a).nodesMap d = some nr := by
        rw [removeIdStep_lookup]
        simp only [hne, if_false]
        exact hl
      have ht2 : (hGet (removeIdStep st a) nr).map Node.type =
          some "folder" := by
        have hh : (removeIdStep st a).heap = st.heap :=
          (removeIdStep_frame st a).1
        simp only [hGet, hh]
        exact ht
      exact ih (removeIdStep st a) hd2 (List.nodup_cons.mp hnd).2 hl2 ht2

theorem detach_idOf (s : State) (node : Node) (x : Nat) :
    idOf (detachFromParent s node) x = idOf s x := by
  rcases detach_hGet_cases s node x with hc | ⟨pn, h1, h2⟩
  · simp [idOf, hc]
  · simp [idOf, h1, h2]

theorem detach_type (s : State) (node : Node) (x : Nat) :
    (hGet (detachFromParent s node) x).map Node.type =
      (hGet s x).map Node.type := by
  rcases detach_hGet_cases s node x with hc | ⟨pn, h1, h2⟩
  · rw [hc]
  · rw [h1, h2]
    rfl

/-! ### Full specification of removeNodeAndDescendants -/

theorem removeNodeAndDescendants_spec (s : State) (r : Nat) (nd : Node)
    (hg : hGet s r = some nd) :
    (∀ x ∈ removalIds s nd r,
      aLookup (removeNodeAndDescendants s r).nodesMap x = none) ∧
    ((removalIds s nd r).Nodup → ∀ x ∈ removalIds s nd r,
      aHas s.nodesMap x = true →
      x ∉ (removeNodeAndDescendants s r).selectedFiles) ∧
    ((removalIds s nd r).Nodup → ∀ x ∈ removalIds s nd r, ∀ rx,
      aLookup s.nodesMap x = some rx →
      (hGet s rx).map Node.type = some "folder" →
      x ∉ (removeNodeAndDescendants s r).openFolders) ∧
    (∀ l ∈ (removeNodeAndDescendants s r).linksData,
      idOf s l.1 ∉ removalIds s nd r ∧ idOf s l.2 ∉ removalIds s nd r) ∧
    (∀ dr ∈ (removeNodeAndDescendants s r).nodesData,
      idOf s dr ∉ removalIds s nd r) ∧
    (removeNodeAndDescendants s r).requests = s.requests := by
  obtain ⟨hd1, hd2, hd3, hd4, hd5, hd6, hd7⟩ := detachFromParent_fields s nd
  obtain ⟨ff1, ff2, ff3, ff4, ff5⟩ :=
    foldRemove_frame (removalIds s nd r) (detachFromParent s nd)
  have hfin : removeNodeAndDescendants s r =
      (let s2 := (removalIds s nd r).foldl removeIdStep (detachFromParent s nd)
       { s2 with
         nodesData := s2.nodesData.filter
           (fun dr => !((removalIds s nd r).contains (idOf s2 dr))),
         linksData := s2.linksData.filter
           (fun l => !((removalIds s nd r).contains (idOf s2 l.1)) &&
                     !((removalIds s nd r).contains (idOf s2 l.2))) }) := by
    unfold removeNodeAndDescendants
    rw [hg]
  rw [hfin]
  dsimp only []
  have hido : ∀ x, idOf
      ((removalIds s nd r).foldl removeIdStep (detachFromParent s nd)) x =
      idOf s x := by
    intro x
    simp only [idOf, hGet, ff1]
    rw [show (detachFromParent s nd).heap.get? x =
      hGet (detachFromParent s nd) x from rfl]
    rw [show s.heap.get? x = hGet s x from rfl]
    rcases detach_hGet_cases s nd x with hc | ⟨pn, h1, h2⟩
    · rw [hc]
    · rw [h1, h2]
  refine ⟨?_, ?_, ?_, ?_, ?_, ?_⟩
  · intro x hx
    rw [foldRemove_lookup]
    simp [hx]
  · intro hnd x hx hmem
    have hm2 : aHas (detachFromParent s nd).nodesMap x = true := by
      rw [hd3]
      exact hmem
    exact foldRemove_selected _ _ x hx hnd hm2
  · intro hnd x hx rx hlx htx
    have hl2 : aLookup (detachFromParent s nd).nodesMap x = some rx := by
      rw [hd3]
      exact hlx
    have ht2 : (hGet (detachFromParent s nd) rx).map Node.type =
        some "folder" := by
      rw [detach_type]
      exact htx
    exact foldRemove_open _ _ x hx hnd rx hl2 ht2
  · intro l hl
    have := List.of_mem_filter hl
    simp only [Bool.and_eq_true, Bool.not_eq_true'] at this
    constructor
    · have hc := this.1
      rw [hido] at hc
      simpa using hc
    · have hc := this.2
      rw [hido] at hc
      simpa using hc
  · intro dr hdr
    have := List.of_mem_filter hdr
    simp only [Bool.not_eq_true'] at this
    rw [hido] at this
    simpa using this
  · rw [ff4, hd7]

/-- C8: for a `deleted` event: if the path is materialized, the handler
removes the node and its entire materialized subtree from the node table,
SelectedSet, OpenSet and edge list, issuing no listing request; otherwise
it issues a corrective listing request for the parent exactly when the
parent is open, with no other state change. -/
theorem claim_c8_deleted_event (s : State) (p : String) (d : Option String)
    (b : Bool) (hp : p ≠ "") :
    (∀ r nd, aLookup s.nodesMap p = some r → hGet s r = some nd →
      handleFsEvent s ⟨"deleted", p, d, b⟩ = removeNodeAndDescendants s r ∧
      (∀ x ∈ removalIds s nd r,
        aLookup (handleFsEvent s ⟨"deleted", p, d, b⟩).nodesMap x = none) ∧
      ((removalIds s nd r).Nodup → ∀ x ∈ removalIds s nd r,
        aHas s.nodesMap x = true →
        x ∉ (handleFsEvent s ⟨"deleted", p, d, b⟩).selectedFiles) ∧
      ((removalIds s nd r).Nodup → ∀ x ∈ removalIds s nd r, ∀ rx,
        aLookup s.nodesMap x = some rx →
        (hGet s rx).map Node.type = some "folder" →
        x ∉ (handleFsEvent s ⟨"deleted", p, d, b⟩).openFolders) ∧
      (∀ l ∈ (handleFsEvent s ⟨"deleted", p, d, b⟩).linksData,
        idOf s l.1 ∉ removalIds s nd r ∧ idOf s l.2 ∉ removalIds s nd r) ∧
      (handleFsEvent s ⟨"deleted", p, d, b⟩).requests = s.requests) ∧
    (aLookup s.nodesMap p = none →
      (parentDir p ∈ s.openFolders →
        handleFsEvent s ⟨"deleted", p, d, b⟩ =
          { s with requests := s.requests ++ [parentDir p] }) ∧
      (parentDir p ∉ s.openFolders →
        handleFsEvent s ⟨"deleted", p, d, b⟩ = s)) := by
  constructor
  · intro r nd hm hg
    have hdisp : handleFsEvent s ⟨"deleted", p, d, b⟩ =
        removeNodeAndDescendants s r := by
      unfold handleFsEvent removePathIfPresent
      simp [hp, hm]
    obtain ⟨a1, a2, a3, a4, a5, a6⟩ := removeNodeAndDescendants_spec s r nd hg
    rw [hdisp]
    exact ⟨rfl, a1, a2, a3, a4, a6⟩
  · intro hnone
    have hdisp : handleFsEvent s ⟨"deleted", p, d, b⟩ =
        (if parentDir p ∈ s.openFolders then
          { s with requests := s.requests ++ [parentDir p] } else s) := by
      unfold handleFsEvent removePathIfPresent
      simp [hp, hnone]
    constructor
    · intro ho
      rw [hdisp, if_pos ho]
    · intro ho
      rw [hdisp, if_neg ho]

def delScene1 : State := step State.empty (Op.rootAdd "/a" none)

def delScene2 : State := step delScene1 (Op.expand "/a")

def delScene3 : State :=
  step delScene2 (Op.listing "/a" [⟨"b", "/a/b", "folder"⟩])

def delScene4 : State := step delScene3 (Op.expand "/a/b")

def delScene5 : State :=
  step delScene4 (Op.listing "/a/b" [⟨"c.txt", "/a/b/c.txt", "file"⟩])

def delScene6 : State := step delScene5 (Op.click "/a/b/c.txt")

/-- Witness for C8: deleting the open folder `/a/b` (materialized with
selected child `/a/b/c.txt`) removes both paths from the node table, the
child from SelectedSet and the folder from OpenSet, without issuing any
request. -/
theorem claim_c8_deleted_event_witness :
    aLookup (handleFsEvent delScene6
      ⟨"deleted", "/a/b", none, true⟩).nodesMap "/a/b" = none ∧
    aLookup (handleFsEvent delScene6
      ⟨"deleted", "/a/b", none, true⟩).nodesMap "/a/b/c.txt" = none ∧
    "/a/b/c.txt" ∉ (handleFsEvent delScene6
      ⟨"deleted", "/a/b", none, true⟩).selectedFiles ∧
    "/a/b" ∉ (handleFsEvent delScene6
      ⟨"deleted", "/a/b", none, true⟩).openFolders ∧
    (handleFsEvent delScene6
      ⟨"deleted", "/a/b", none, true⟩).requests = delScene6.requests := by
  have h := (claim_c8_deleted_event delScene6 "/a/b" none true
    (by decide)).1 1
    { nodeName := "b", fullPath := "/a/b", type := "folder",
      children := [2], id := "/a/b", isOpen := true, depth := 1,
      selected := false, parentId := some "/a", isRoot := false }
    (by decide) (by decide)
  refine ⟨?_, ?_, ?_, ?_, h.2.2.2.2.2⟩
  · exact h.2.1 "/a/b" (by decide)
  · exact h.2.1 "/a/b/c.txt" (by decide)
  · exact h.2.2.1 (by decide) "/a/b/c.txt" (by decide) (by decide)
  · exact h.2.2.2.1 (by decide) "/a/b" (by decide) 1 (by decide) (by decide)

/-! ### Sortedness of the lasso batches -/

theorem mem_insertDesc (s : State) (a x : Nat) (l : List Nat) :
    x ∈ insertDesc s a l ↔ x = a ∨ x ∈ l := by
  induction l with
  | nil => simp [insertDesc]
  | cons b l ih =>
    unfold insertDesc
    split
    · simp
    · simp only [List.mem_cons, ih]
      tauto

theorem insertDesc_pairwise (s : State) (a : Nat) (l : List Nat)
    (h : List.Pairwise (fun x y => depthOf s x ≥ depthOf s y) l) :
    List.Pairwise (fun x y => depthOf s x ≥ depthOf s y) (insertDesc s a l) := by
  induction l with
  | nil => simp [insertDesc]
  | cons b l ih =>
    unfold insertDesc
    split
    · refine List.Pairwise.cons ?_ h
      intro x hx
      rcases List.mem_cons.mp hx with rfl | hx2
      · omega
      · have hb := (List.pairwise_cons.mp h).1 x hx2
        omega
    · have hba : depthOf s b ≥ depthOf s a := by omega
      refine List.Pairwise.cons ?_ (ih (List.pairwise_cons.mp h).2)
      intro x hx
      rcases (mem_insertDesc s a x l).mp hx with rfl | hx2
      · exact hba
      · exact (List.pairwise_cons.mp h).1 x hx2

theorem mem_sortDescDepth (s : State) (x : Nat) (l : List Nat) :
    x ∈ sortDescDepth s l ↔ x ∈ l := by
  induction l with
  | nil => simp [sortDescDepth]
  | cons b l ih =>
    show x ∈ insertDesc s b (sortDescDepth s l) ↔ _
    rw [mem_insertDesc]
    simp only [List.mem_cons, ih]

theorem sortDescDepth_pairwise (s : State) (l : List Nat) :
    List.Pairwise (fun x y => depthOf s x ≥ depthOf s y)
      (sortDescDepth s l) := by
  induction l with
  | nil => simp [sortDescDepth]
  | cons b l ih => exact insertDesc_pairwise s b _ ih

theorem mem_insertAsc (s : State) (a x : Nat) (l : List Nat) :
    x ∈ insertAsc s a l ↔ x = a ∨ x ∈ l := by
  induction l with
  | nil => simp [insertAsc]
  | cons b l ih =>
    unfold insertAsc
    split
    · simp
    · simp only [List.mem_cons, ih]
      tauto

theorem insertAsc_pairwise (s : State) (a : Nat) (l : List Nat)
    (h : List.Pairwise (fun x y => depthOf s x ≤ depthOf s y) l) :
    List.Pairwise (fun x y => depthOf s x ≤ depthOf s y) (insertAsc s a l) := by
  induction l with
  | nil => simp [insertAsc]
  | cons b l ih =>
    unfold insertAsc
    split
    · refine List.Pairwise.cons ?_ h
      intro x hx
      rcases List.mem_cons.mp hx with rfl | hx2
      · omega
      · have hb := (List.pairwise_cons.mp h).1 x hx2
        omega
    · have hba : depthOf s b ≤ depthOf s a := by omega
      refine List.Pairwise.cons ?_ (ih (List.pairwise_cons.mp h).2)
      intro x hx
      rcases (mem_insertAsc s a x l).mp hx with rfl | hx2
      · exact hba
      · exact (List.pairwise_cons.mp h).1 x hx2

theorem mem_sortAscDepth (s : State) (x : Nat) (l : List Nat) :
    x ∈ sortAscDepth s l ↔ x ∈ l := by
  induction l with
  | nil => simp [sortAscDepth]
  | cons b l ih =>
    show x ∈ insertAsc s b (sortAscDepth s l) ↔ _
    rw [mem_insertAsc]
    simp only [List.mem_cons, ih]

theorem sortAscDepth_pairwise (s : State) (l : List Nat) :
    List.Pairwise (fun x y => depthOf s x ≤ depthOf s y)
      (sortAscDepth s l) := by
  induction l with
  | nil => simp [sortAscDepth]
  | cons b l ih => exact insertAsc_pairwise s b _ ih

/-- C7: the lasso resolver (i) keeps exactly the captured folders that
have no other captured folder as a path-ancestor, (ii) collapses the kept
already-open folders in weakly-deepest-first order, (iii) expands the kept
closed folders in weakly-shallowest-first order; and in the concrete
capture of the open parent `/a` together with its open child `/a/b` (both
toggle-collapse), the child is dropped from the batch and removed as part
of the single collapse of `/a`, yielding one final state in which `/a` is
present and closed, `/a/b` and `/a/b/c.txt` are gone, and no remaining
node\x27s children array mentions a node absent from the node table. -/
theorem claim_c7_lasso_ordering (s : State) (l : List Nat) :
    (∀ f, f ∈ topLevelFoldersOnly s l ↔ f ∈ l ∧
      ∀ g ∈ l, ¬(idOf s g ≠ idOf s f ∧
        isAncestorPath (idOf s g) (idOf s f) = true)) ∧
    List.Pairwise (fun a b => depthOf s a ≥ depthOf s b) (lassoToClose s l) ∧
    List.Pairwise (fun a b => depthOf s a ≤ depthOf s b) (lassoToOpen s l) ∧
    (∀ f, f ∈ lassoToClose s l ↔
      f ∈ topLevelFoldersOnly s l ∧ isOpenOf s f = true) ∧
    (∀ f, f ∈ lassoToOpen s l ↔
      f ∈ topLevelFoldersOnly s l ∧ isOpenOf s f = false) ∧
    (aLookup (handleLassoSelect delScene5 [0, 1]).nodesMap "/a" = some 0 ∧
     isOpenOf (handleLassoSelect delScene5 [0, 1]) 0 = false ∧
     childrenOf (handleLassoSelect delScene5 [0, 1]) 0 = [] ∧
     aLookup (handleLassoSelect delScene5 [0, 1]).nodesMap "/a/b" = none ∧
     aLookup (handleLassoSelect delScene5 [0, 1]).nodesMap "/a/b/c.txt" =
       none ∧
     (handleLassoSelect delScene5 [0, 1]).openFolders = [] ∧
     ∀ e ∈ (handleLassoSelect delScene5 [0, 1]).nodesMap,
       ∀ c ∈ childrenOf (handleLassoSelect delScene5 [0, 1]) e.2,
         aHas (handleLassoSelect delScene5 [0, 1]).nodesMap
           (idOf (handleLassoSelect delScene5 [0, 1]) c) = true) := by
  refine ⟨?_, sortDescDepth_pairwise s _, sortAscDepth_pairwise s _,
    ?_, ?_, ?_⟩
  · intro f
    simp only [topLevelFoldersOnly, List.mem_filter, List.any_eq_true,
      List.mem_map, Bool.not_eq_true']
    constructor
    · rintro ⟨hf, hno⟩
      refine ⟨hf, ?_⟩
      intro g hg ⟨hne, hanc⟩
      have : (List.map (idOf s) l).any
          (fun i => i ≠ idOf s f && isAncestorPath i (idOf s f)) = true := by
        rw [List.any_eq_true]
        refine ⟨idOf s g, List.mem_map_of_mem _ hg, ?_⟩
        simp [hne, hanc]
      rw [this] at hno
      cases hno
    · rintro ⟨hf, hno⟩
      refine ⟨hf, ?_⟩
      rw [Bool.eq_false_iff]
      intro hany
      rw [List.any_eq_true] at hany
      obtain ⟨i, hi, hcond⟩ := hany
      obtain ⟨g, hg, rfl⟩ := List.mem_map.mp hi
      simp only [Bool.and_eq_true, ne_eq, decide_eq_true_eq,
        Bool.not_eq_true] at hcond
      exact hno g hg ⟨by simpa using hcond.1, hcond.2⟩
  · intro f
    unfold lassoToClose
    rw [mem_sortDescDepth, List.mem_filter]
  · intro f
    unfold lassoToOpen
    rw [mem_sortAscDepth, List.mem_filter]
    simp
  · exact ⟨by decide, by decide, by decide, by decide, by decide, by decide,
      by decide⟩

/-! ### Lemmas about updateSetRename and renameStep -/

theorem updateSetRename_old_not_mem (l : List String) (o nw : String)
    (h : o ≠ nw) : o ∉ updateSetRename l o nw := by
  unfold updateSetRename
  split
  · intro hmem
    rcases (mem_sAdd _ _ _).mp hmem with hmem2 | rfl
    · exact ((mem_sDel _ _ _).mp hmem2).2 rfl
    · exact h rfl
  · intro hmem
    simp_all

theorem updateSetRename_new_mem (l : List String) (o nw : String)
    (h : nw ∉ l) : nw ∈ updateSetRename l o nw ↔ o ∈ l := by
  unfold updateSetRename
  by_cases hc : l.contains o = true
  · rw [if_pos hc]
    rw [mem_sAdd]
    constructor
    · intro _
      simpa using hc
    · intro _
      exact Or.inr rfl
  · rw [if_neg hc]
    constructor
    · intro hmem
      exact absurd hmem h
    · intro hmem
      exact absurd (by simpa using hmem) hc

theorem updateSetRename_frame (l : List String) (o nw x : String)
    (h1 : x ≠ o) (h2 : x ≠ nw) :
    x ∈ updateSetRename l o nw ↔ x ∈ l := by
  unfold updateSetRename
  split
  · rw [mem_sAdd]
    constructor
    · rintro (hmem | rfl)
      · exact ((mem_sDel _ _ _).mp hmem).1
      · exact absurd rfl h2
    · intro hmem
      exact Or.inl ((mem_sDel _ _ _).mpr ⟨hmem, h1⟩)
  · exact Iff.rfl

theorem renamedNode_id (oldPath newPath : String) (nr cr : Nat) (n : Node) :
    (renamedNode oldPath newPath nr cr n).id =
      renameRebase oldPath newPath n.id := by
  unfold renamedNode
  dsimp only []
  split
  · rfl
  · cases n.parentId with
    | none => rfl
    | some pid =>
      dsimp only []
      split <;> rfl

theorem renameStep_components (oldPath newPath : String) (nr : Nat)
    (st : State) (t : Nat) (n : Node) (hgt : hGet st t = some n) :
    (renameStep oldPath newPath nr st t).heap =
      st.heap.set t (renamedNode oldPath newPath nr t n) ∧
    (renameStep oldPath newPath nr st t).nodesMap =
      aSet (aDel st.nodesMap n.id)
        (renameRebase oldPath newPath n.id) t ∧
    (renameStep oldPath newPath nr st t).selectedFiles =
      updateSetRename st.selectedFiles n.id
        (renameRebase oldPath newPath n.id) ∧
    (renameStep oldPath newPath nr st t).openFolders =
      (if n.type = "folder" ∧ n.isOpen = true then
        sAdd (sDel st.openFolders n.id) (renameRebase oldPath newPath n.id)
       else st.openFolders) ∧
    (renameStep oldPath newPath nr st t).requests = st.requests ∧
    (renameStep oldPath newPath nr st t).nodesData = st.nodesData ∧
    (renameStep oldPath newPath nr st t).linksData = st.linksData ∧
    (renameStep oldPath newPath nr st t).rootsMap = st.rootsMap := by
  unfold renameStep
  rw [hgt]
  dsimp only []
  rw [renamedNode_id]
  by_cases hui : n.type = "folder" ∧ n.isOpen = true
  · have hb : (n.type = "folder" && n.isOpen) = true := by
      simp [hui.1, hui.2]
    simp only [hb, if_true, hui, hSet]
    exact ⟨by trivial, by trivial, by trivial, by trivial, by trivial,
      by trivial, by trivial, by trivial⟩
  · have hb : (n.type = "folder" && n.isOpen) = false := by
      rcases not_and_or.mp hui with h | h <;> simp [h] <;>
        cases hn : n.isOpen <;> simp_all
    simp only [hb, Bool.false_eq_true, if_false, hui, hSet]
    exact ⟨by trivial, by trivial, by trivial, by trivial, by trivial,
      by trivial, by trivial, by trivial⟩

/-! ### The rename fold: full characterization -/

theorem renameFold_main (oldPath newPath : String) (nr : Nat) (A : List Nat)
    (st : State)
    (hA : A.Nodup)
    (hvalid : ∀ t ∈ A, (hGet st t).isSome = true)
    (hmap : ∀ t ∈ A, aLookup st.nodesMap (idOf st t) = some t)
    (hneid : ∀ t ∈ A, idOf st t ≠ renameRebase oldPath newPath (idOf st t))
    (hnewinj : ∀ t1 ∈ A, ∀ t2 ∈ A,
      renameRebase oldPath newPath (idOf st t1) =
        renameRebase oldPath newPath (idOf st t2) → t1 = t2)
    (hnewold : ∀ t1 ∈ A, ∀ t2 ∈ A,
      renameRebase oldPath newPath (idOf st t1) ≠ idOf st t2)
    (hfreshmap : ∀ t ∈ A,
      aLookup st.nodesMap (renameRebase oldPath newPath (idOf st t)) = none)
    (hfresho : ∀ t ∈ A,
      renameRebase oldPath newPath (idOf st t) ∉ st.openFolders)
    (hfreshs : ∀ t ∈ A,
      renameRebase oldPath newPath (idOf st t) ∉ st.selectedFiles)
    (hopen : ∀ t ∈ A, ∀ n, hGet st t = some n →
      (n.id ∈ st.openFolders ↔ (n.type = "folder" ∧ n.isOpen = true))) :
    (∀ t ∈ A, ∀ n, hGet st t = some n →
      hGet (A.foldl (renameStep oldPath newPath nr) st) t =
        some (renamedNode oldPath newPath nr t n) ∧
      aLookup (A.foldl (renameStep oldPath newPath nr) st).nodesMap
        (renameRebase oldPath newPath n.id) = some t ∧
      aLookup (A.foldl (renameStep oldPath newPath nr) st).nodesMap n.id =
        none ∧
      (renameRebase oldPath newPath n.id ∈
        (A.foldl (renameStep oldPath newPath nr) st).openFolders ↔
        n.id ∈ st.openFolders) ∧
      n.id ∉ (A.foldl (renameStep oldPath newPath nr) st).openFolders ∧
      (renameRebase oldPath newPath n.id ∈
        (A.foldl (renameStep oldPath newPath nr) st).selectedFiles ↔
        n.id ∈ st.selectedFiles) ∧
      n.id ∉ (A.foldl (renameStep oldPath newPath nr) st).selectedFiles) ∧
    (∀ x, x ∉ A →
      hGet (A.foldl (renameStep oldPath newPath nr) st) x = hGet st x) ∧
    (∀ k, (∀ t ∈ A, k ≠ idOf st t ∧
        k ≠ renameRebase oldPath newPath (idOf st t)) →
      aLookup (A.foldl (renameStep oldPath newPath nr) st).nodesMap k =
        aLookup st.nodesMap k ∧
      (k ∈ (A.foldl (renameStep oldPath newPath nr) st).openFolders ↔
        k ∈ st.openFolders) ∧
      (k ∈ (A.foldl (renameStep oldPath newPath nr) st).selectedFiles ↔
        k ∈ st.selectedFiles)) ∧
    (A.foldl (renameStep oldPath newPath nr) st).requests = st.requests := by
  induction A generalizing st with
  | nil =>
    refine ⟨?_, ?_, ?_, rfl⟩
    · intro t ht
      cases ht
    · intro x _
      rfl
    · intro k _
      exact ⟨rfl, Iff.rfl, Iff.rfl⟩
  | cons t A ih =>
    have htA : t ∈ t :: A := List.mem_cons_self t A
    obtain ⟨n, hgt⟩ := Option.isSome_iff_exists.mp (hvalid t htA)
    obtain ⟨c1, c2, c3, c4, c5, c6, c7, c8⟩ :=
      renameStep_components oldPath newPath nr st t n hgt
    have hidt : idOf st t = n.id := by simp [idOf, hgt]
    have hnod : t ∉ A := (List.nodup_cons.mp hA).1
    have hAnd : A.Nodup := (List.nodup_cons.mp hA).2
    have hlt : t < st.heap.length := hGet_isSome_of st t n hgt
    have hget2 : ∀ u, u ≠ t →
        hGet (renameStep oldPath newPath nr st t) u = hGet st u := by
      intro u hu
      simp only [hGet, c1, List.get?_eq_getElem?]
      exact List.getElem?_set_ne (fun h => hu h.symm)
    have hgett : hGet (renameStep oldPath newPath nr st t) t =
        some (renamedNode oldPath newPath nr t n) := by
      simp only [hGet, c1, List.get?_eq_getElem?]
      exact List.getElem?_set_self hlt
    have hid2 : ∀ u, u ≠ t →
        idOf (renameStep oldPath newPath nr st t) u = idOf st u := by
      intro u hu
      simp [idOf, hget2 u hu]
    have hneAt : ∀ u ∈ A, u ≠ t := by
      intro u hu h
      subst h
      exact hnod hu
    have hninj : ∀ u ∈ A, idOf st u ≠ n.id := by
      intro u hu h
      have h1 := hmap u (List.mem_cons_of_mem t hu)
      have h2 := hmap t htA
      rw [hidt] at h2
      rw [h] at h1
      rw [h1] at h2
      exact (hneAt u hu (Option.some_injective _ h2.symm).symm).elim
    have hnewIdt : renameRebase oldPath newPath (idOf st t) =
        renameRebase oldPath newPath n.id := by rw [hidt]
    have hnewne : ∀ u ∈ A,
        renameRebase oldPath newPath n.id ≠ idOf st u := by
      intro u hu
      rw [← hidt]
      exact hnewold t htA u (List.mem_cons_of_mem t hu)
    have hnewne2 : ∀ u ∈ A,
        renameRebase oldPath newPath (idOf st u) ≠
          renameRebase oldPath newPath n.id := by
      intro u hu h
      rw [← hidt] at h
      exact hneAt u hu (hnewinj u (List.mem_cons_of_mem t hu) t htA h)
    have hnoldt : ∀ u ∈ A,
        renameRebase oldPath newPath (idOf st u) ≠ n.id := by
      intro u hu
      rw [← hidt]
      exact hnewold u (List.mem_cons_of_mem t hu) t htA
    have hneidt : n.id ≠ renameRebase oldPath newPath n.id := by
      have h0 := hneid t htA
      rwa [hidt] at h0
    have hmap2t : aLookup (renameStep oldPath newPath nr st t).nodesMap
        (renameRebase oldPath newPath n.id) = some t := by
      rw [c2]
      exact aLookup_aSet_self _ _ _
    have hmap2old : aLookup (renameStep oldPath newPath nr st t).nodesMap
        n.id = none := by
      rw [c2, aLookup_aSet_ne _ _ _ _ hneidt, aLookup_aDel_self]
    have hmap2frame : ∀ k, k ≠ n.id →
        k ≠ renameRebase oldPath newPath n.id →
        aLookup (renameStep oldPath newPath nr st t).nodesMap k =
          aLookup st.nodesMap k := by
      intro k hk1 hk2
      rw [c2, aLookup_aSet_ne _ _ _ _ hk2, aLookup_aDel_ne _ _ _ hk1]
    have hopen2frame : ∀ k, k ≠ n.id →
        k ≠ renameRebase oldPath newPath n.id →
        (k ∈ (renameStep oldPath newPath nr st t).openFolders ↔
          k ∈ st.openFolders) := by
      intro k hk1 hk2
      rw [c4]
      split
      · rw [mem_sAdd, mem_sDel]
        constructor
        · rintro (⟨hm2, _⟩ | rfl)
          · exact hm2
          · exact absurd rfl hk2
        · intro hm2
          exact Or.inl ⟨hm2, hk1⟩
      · exact Iff.rfl
    have hsel2frame : ∀ k, k ≠ n.id →
        k ≠ renameRebase oldPath newPath n.id →
        (k ∈ (renameStep oldPath newPath nr st t).selectedFiles ↔
          k ∈ st.selectedFiles) := by
      intro k hk1 hk2
      rw [c3]
      exact updateSetRename_frame _ _ _ _ hk1 hk2
    have hvalid2 : ∀ u ∈ A,
        (hGet (renameStep oldPath newPath nr st t) u).isSome = true := by
      intro u hu
      rw [hget2 u (hneAt u hu)]
      exact hvalid u (List.mem_cons_of_mem t hu)
    have hmap2 : ∀ u ∈ A,
        aLookup (renameStep oldPath newPath nr st t).nodesMap
          (idOf (renameStep oldPath newPath nr st t) u) = some u := by
      intro u hu
      rw [hid2 u (hneAt u hu),
        hmap2frame _ (hninj u hu) (fun h => hnewne u hu h.symm)]
      exact hmap u (List.mem_cons_of_mem t hu)
    have hneid2 : ∀ u ∈ A,
        idOf (renameStep oldPath newPath nr st t) u ≠
          renameRebase oldPath newPath
            (idOf (renameStep oldPath newPath nr st t) u) := by
      intro u hu
      rw [hid2 u (hneAt u hu)]
      exact hneid u (List.mem_cons_of_mem t hu)
    have hnewinj2 : ∀ u1 ∈ A, ∀ u2 ∈ A,
        renameRebase oldPath newPath
          (idOf (renameStep oldPath newPath nr st t) u1) =
        renameRebase oldPath newPath
          (idOf (renameStep oldPath newPath nr st t) u2) → u1 = u2 := by
      intro u1 hu1 u2 hu2 h
      rw [hid2 u1 (hneAt u1 hu1), hid2 u2 (hneAt u2 hu2)] at h
      exact hnewinj u1 (List.mem_cons_of_mem t hu1) u2
        (List.mem_cons_of_mem t hu2) h
    have hnewold2 : ∀ u1 ∈ A, ∀ u2 ∈ A,
        renameRebase oldPath newPath
          (idOf (renameStep oldPath newPath nr st t) u1) ≠
        idOf (renameStep oldPath newPath nr st t) u2 := by
      intro u1 hu1 u2 hu2
      rw [hid2 u1 (hneAt u1 hu1), hid2 u2 (hneAt u2 hu2)]
      exact hnewold u1 (List.mem_cons_of_mem t hu1) u2
        (List.mem_cons_of_mem t hu2)
    have hfreshmap2 : ∀ u ∈ A,
        aLookup (renameStep oldPath newPath nr st t).nodesMap
          (renameRebase oldPath newPath
            (idOf (renameStep oldPath newPath nr st t) u)) = none := by
      intro u hu
      rw [hid2 u (hneAt u hu),
        hmap2frame _ (hnoldt u hu) (hnewne2 u hu)]
      exact hfreshmap u (List.mem_cons_of_mem t hu)
    have hfresho2 : ∀ u ∈ A,
        renameRebase oldPath newPath
          (idOf (renameStep oldPath newPath nr st t) u) ∉
          (renameStep oldPath newPath nr st t).openFolders := by
      intro u hu
      rw [hid2 u (hneAt u hu),
        hopen2frame _ (hnoldt u hu) (hnewne2 u hu)]
      exact hfresho u (List.mem_cons_of_mem t hu)
    have hfreshs2 : ∀ u ∈ A,
        renameRebase oldPath newPath
          (idOf (renameStep oldPath newPath nr st t) u) ∉
          (renameStep oldPath newPath nr st t).selectedFiles := by
      intro u hu
      rw [hid2 u (hneAt u hu),
        hsel2frame _ (hnoldt u hu) (hnewne2 u hu)]
      exact hfreshs u (List.mem_cons_of_mem t hu)
    have hopen2 : ∀ u ∈ A, ∀ m,
        hGet (renameStep oldPath newPath nr st t) u = some m →
        (m.id ∈ (renameStep oldPath newPath nr st t).openFolders ↔
          (m.type = "folder" ∧ m.isOpen = true)) := by
      intro u hu m hm
      rw [hget2 u (hneAt u hu)] at hm
      have hmid : m.id = idOf st u := by simp [idOf, hm]
      rw [hopen2frame _ (by rw [hmid]; exact hninj u hu)
        (by rw [hmid]; exact fun h => hnewne u hu h.symm)]
      exact hopen u (List.mem_cons_of_mem t hu) m hm
    obtain ⟨IH1, IH2, IH3, IH4⟩ := ih (renameStep oldPath newPath nr st t)
      hAnd hvalid2 hmap2 hneid2 hnewinj2 hnewold2 hfreshmap2 hfresho2
      hfreshs2 hopen2
    have hfold : (t :: A).foldl (renameStep oldPath newPath nr) st =
        A.foldl (renameStep oldPath newPath nr)
          (renameStep oldPath newPath nr st t) := rfl
    rw [hfold]
    have hsideNew : ∀ u ∈ A,
        renameRebase oldPath newPath n.id ≠
          idOf (renameStep oldPath newPath nr st t) u ∧
        renameRebase oldPath newPath n.id ≠
          renameRebase oldPath newPath
            (idOf (renameStep oldPath newPath nr st t) u) := by
      intro u hu
      rw [hid2 u (hneAt u hu)]
      exact ⟨hnewne u hu, fun h => (hnewne2 u hu h.symm).elim⟩
    have hsideOld : ∀ u ∈ A,
        n.id ≠ idOf (renameStep oldPath newPath nr st t) u ∧
        n.id ≠ renameRebase oldPath newPath
          (idOf (renameStep oldPath newPath nr st t) u) := by
      intro u hu
      rw [hid2 u (hneAt u hu)]
      exact ⟨fun h => (hninj u hu h.symm).elim,
        fun h => (hnoldt u hu h.symm).elim⟩
    refine ⟨?_, ?_, ?_, ?_⟩
    · intro u hu m hm
      rcases List.mem_cons.mp hu with rfl | hu2
      · have hmn : m = n := (Option.some_injective _ (hgt.symm.trans hm)).symm
        subst hmn
        obtain ⟨k1, k2, k3⟩ := IH3 (renameRebase oldPath newPath m.id)
          (by
            intro u2 hu2
            exact hsideNew u2 hu2)
        obtain ⟨o1, o2, o3⟩ := IH3 m.id
          (by
            intro u2 hu2
            exact hsideOld u2 hu2)
        refine ⟨?_, ?_, ?_, ?_, ?_, ?_, ?_⟩
        · rw [IH2 u hnod, hgett]
        · rw [k1, hmap2t]
        · rw [o1, hmap2old]
        · have hfro : renameRebase oldPath newPath m.id ∉ st.openFolders := by
            rw [← hidt]
            exact hfresho u htA
          rw [k2, c4]
          by_cases hui : m.type = "folder" ∧ m.isOpen = true
          · rw [if_pos hui]
            constructor
            · intro _
              exact (hopen u htA m hm).mpr hui
            · intro _
              rw [mem_sAdd]
              exact Or.inr rfl
          · rw [if_neg hui]
            constructor
            · intro hmem
              exact absurd hmem hfro
            · intro hmem
              exact absurd ((hopen u htA m hm).mp hmem) hui
        · rw [o2, c4]
          by_cases hui : m.type = "folder" ∧ m.isOpen = true
          · rw [if_pos hui]
            intro hmem
            rcases (mem_sAdd _ _ _).mp hmem with hc | hc
            · exact ((mem_sDel _ _ _).mp hc).2 rfl
            · exact hneidt hc
          · rw [if_neg hui]
            intro hmem
            exact hui ((hopen u htA m hm).mp hmem)
        · have hfrs : renameRebase oldPath newPath m.id ∉
              st.selectedFiles := by
            rw [← hidt]
            exact hfreshs u htA
          rw [k3, c3]
          exact updateSetRename_new_mem _ _ _ hfrs
        · rw [o3, c3]
          exact updateSetRename_old_not_mem _ _ _ hneidt
      · have hm2 : hGet (renameStep oldPath newPath nr st t) u = some m := by
          rw [hget2 u (hneAt u hu2)]
          exact hm
        obtain ⟨j1, j2, j3, j4, j5, j6, j7⟩ := IH1 u hu2 m hm2
        have hmid : m.id = idOf st u := by simp [idOf, hm]
        refine ⟨j1, j2, j3, ?_, j5, ?_, j7⟩
        · rw [j4]
          exact hopen2frame m.id (by rw [hmid]; exact hninj u hu2)
            (by rw [hmid]; exact fun h => hnewne u hu2 h.symm)
        · rw [j6]
          exact hsel2frame m.id (by rw [hmid]; exact hninj u hu2)
            (by rw [hmid]; exact fun h => hnewne u hu2 h.symm)
    · intro x hx
      have hx1 : x ∉ A := fun h => hx (List.mem_cons_of_mem t h)
      have hx2 : x ≠ t := fun h => hx (h ▸ List.mem_cons_self t A)
      rw [IH2 x hx1, hget2 x hx2]
    · intro k hk
      have hkt := hk t htA
      rw [hidt] at hkt
      obtain ⟨m1, m2, m3⟩ := IH3 k (by
        intro u hu
        rw [hid2 u (hneAt u hu)]
        exact hk u (List.mem_cons_of_mem t hu))
      refine ⟨?_, ?_, ?_⟩
      · rw [m1, hmap2frame k hkt.1 hkt.2]
      · rw [m2]
        exact hopen2frame k hkt.1 hkt.2
      · rw [m3]
        exact hsel2frame k hkt.1 hkt.2
    · rw [IH4, c5]

/-- C2: a same-parent directory `moved` event whose old path is
materialized rebases, for the moved node and every materialized
descendant, the node\x27s `id`/`fullPath` (and for descendants the parent
back-reference) by prefix substitution, re-keys the node table
accordingly, removes the old paths from the table, transports OpenSet and
SelectedSet membership from old to new paths, and preserves each node\x27s
`type`, `children`, `isOpen`, `depth` and `selected` (see `renamedNode`):
no collapse or re-expansion happens.  The hypotheses state that the event
is a well-formed same-parent rename (old path materialized; subtree
references valid, distinct, and keyed at their ids; rebased ids fresh and
collision-free; OpenSet coherent on the subtree). -/
theorem claim_c2_same_parent_dir_move (s : State) (p dest : String)
    (nr : Nat)
    (hp : p ≠ "") (hd : dest ≠ "")
    (hsame : parentDir p = parentDir dest)
    (hm : aLookup s.nodesMap p = some nr)
    (hA : (collectSubtree s nr).Nodup)
    (hvalid : ∀ t ∈ collectSubtree s nr, (hGet s t).isSome = true)
    (hmapA : ∀ t ∈ collectSubtree s nr,
      aLookup s.nodesMap (idOf s t) = some t)
    (hneid : ∀ t ∈ collectSubtree s nr,
      idOf s t ≠ renameRebase p dest (idOf s t))
    (hnewinj : ∀ t1 ∈ collectSubtree s nr, ∀ t2 ∈ collectSubtree s nr,
      renameRebase p dest (idOf s t1) = renameRebase p dest (idOf s t2) →
        t1 = t2)
    (hnewold : ∀ t1 ∈ collectSubtree s nr, ∀ t2 ∈ collectSubtree s nr,
      renameRebase p dest (idOf s t1) ≠ idOf s t2)
    (hfreshmap : ∀ t ∈ collectSubtree s nr,
      aLookup s.nodesMap (renameRebase p dest (idOf s t)) = none)
    (hfresho : ∀ t ∈ collectSubtree s nr,
      renameRebase p dest (idOf s t) ∉ s.openFolders)
    (hfreshs : ∀ t ∈ collectSubtree s nr,
      renameRebase p dest (idOf s t) ∉ s.selectedFiles)
    (hopen : ∀ t ∈ collectSubtree s nr,
      (idOf s t ∈ s.openFolders ↔
        ((hGet s t).map Node.type = some "folder" ∧
         (hGet s t).map Node.isOpen = some true))) :
    ∀ t ∈ collectSubtree s nr, ∀ n, hGet s t = some n →
      hGet (handleFsEvent s ⟨"moved", p, some dest, true⟩) t =
        some (renamedNode p dest nr t n) ∧
      aLookup (handleFsEvent s
        ⟨"moved", p, some dest, true⟩).nodesMap
        (renameRebase p dest n.id) = some t ∧
      aLookup (handleFsEvent s
        ⟨"moved", p, some dest, true⟩).nodesMap n.id = none ∧
      (renameRebase p dest n.id ∈
        (handleFsEvent s ⟨"moved", p, some dest, true⟩).openFolders ↔
        n.id ∈ s.openFolders) ∧
      n.id ∉ (handleFsEvent s ⟨"moved", p, some dest, true⟩).openFolders ∧
      (renameRebase p dest n.id ∈
        (handleFsEvent s ⟨"moved", p, some dest, true⟩).selectedFiles ↔
        n.id ∈ s.selectedFiles) ∧
      n.id ∉ (handleFsEvent s
        ⟨"moved", p, some dest, true⟩).selectedFiles := by
  have hopen2 : ∀ t ∈ collectSubtree s nr, ∀ n, hGet s t = some n →
      (n.id ∈ s.openFolders ↔ (n.type = "folder" ∧ n.isOpen = true)) := by
    intro t ht n hgn
    have h0 := hopen t ht
    rw [hgn] at h0
    simp at h0
    have hidn : idOf s t = n.id := by simp [idOf, hgn]
    rw [hidn] at h0
    exact h0
  obtain ⟨M1, M2, M3, M4⟩ := renameFold_main p dest nr (collectSubtree s nr)
    s hA hvalid hmapA hneid hnewinj hnewold hfreshmap hfresho hfreshs hopen2
  have hdisp : handleFsEvent s ⟨"moved", p, some dest, true⟩ =
      refreshIfOpen
        ((collectSubtree s nr).foldl (renameStep p dest nr) s)
        (parentDir p) := by
    unfold handleFsEvent renameOpenFolder
    simp [hp, hd, optTruthy, hsame, hm, aHas]
  obtain ⟨q, hq⟩ := refreshIfOpen_req
    ((collectSubtree s nr).foldl (renameStep p dest nr) s) (parentDir p)
  rw [hdisp, hq]
  intro t ht n hgn
  obtain ⟨a1, a2, a3, a4, a5, a6, a7⟩ := M1 t ht n hgn
  exact ⟨a1, a2, a3, a4, a5, a6, a7⟩

def renScene1 : State := step State.empty (Op.rootAdd "/a" none)

def renScene2 : State := step renScene1 (Op.expand "/a")

def renScene3 : State :=
  step renScene2 (Op.listing "/a" [⟨"b", "/a/b", "folder"⟩])

def renScene4 : State := step renScene3 (Op.expand "/a/b")

def renScene5 : State :=
  step renScene4 (Op.listing "/a/b" [⟨"c", "/a/b/c", "folder"⟩])

def renScene6 : State := step renScene5 (Op.expand "/a/b/c")

def renScene7 : State :=
  step renScene6 (Op.listing "/a/b/c" [⟨"d.txt", "/a/b/c/d.txt", "file"⟩])

def renScene8 : State := step renScene7 (Op.click "/a/b/c/d.txt")

/-- Witness for C2: the spec scenario: open `/a/b` with open child
`/a/b/c` and selected file `/a/b/c/d.txt`; the same-parent rename
`/a/b → /a/x` yields `/a/x` open, `/a/x/c` open and `/a/x/c/d.txt`
selected, with the old paths gone. -/
theorem claim_c2_same_parent_dir_move_witness :
    "/a/x" ∈ (handleFsEvent renScene8
      ⟨"moved", "/a/b", some "/a/x", true⟩).openFolders ∧
    "/a/x/c" ∈ (handleFsEvent renScene8
      ⟨"moved", "/a/b", some "/a/x", true⟩).openFolders ∧
    "/a/x/c/d.txt" ∈ (handleFsEvent renScene8
      ⟨"moved", "/a/b", some "/a/x", true⟩).selectedFiles ∧
    aLookup (handleFsEvent renScene8
      ⟨"moved", "/a/b", some "/a/x", true⟩).nodesMap "/a/b" = none ∧
    "/a/b/c/d.txt" ∉ (handleFsEvent renScene8
      ⟨"moved", "/a/b", some "/a/x", true⟩).selectedFiles := by
  have h := claim_c2_same_parent_dir_move renScene8 "/a/b" "/a/x" 1
    (by decide) (by decide) (by decide) (by decide) (by decide) (by decide)
    (by decide) (by decide) (by decide) (by decide) (by decide) (by decide)
    (by decide) (by decide)
  have hb := h 1 (by decide)
    { nodeName := "b", fullPath := "/a/b", type := "folder",
      children := [2], id := "/a/b", isOpen := true, depth := 1,
      selected := false, parentId := some "/a", isRoot := false }
    (by decide)
  have hc := h 2 (by decide)
    { nodeName := "c", fullPath := "/a/b/c", type := "folder",
      children := [3], id := "/a/b/c", isOpen := true, depth := 2,
      selected := false, parentId := some "/a/b", isRoot := false }
    (by decide)
  have hdn := h 3 (by decide)
    { nodeName := "d.txt", fullPath := "/a/b/c/d.txt", type := "file",
      children := [], id := "/a/b/c/d.txt", isOpen := false, depth := 3,
      selected := true, parentId := some "/a/b/c", isRoot := false }
    (by decide)
  refine ⟨?_, ?_, ?_, ?_, hdn.2.2.2.2.2.2⟩
  · have e1 : renameRebase "/a/b" "/a/x" "/a/b" = "/a/x" := by decide
    rw [← e1]
    exact hb.2.2.2.1.mpr (by decide)
  · have e2 : renameRebase "/a/b" "/a/x" "/a/b/c" = "/a/x/c" := by decide
    rw [← e2]
    exact hc.2.2.2.1.mpr (by decide)
  · have e3 : renameRebase "/a/b" "/a/x" "/a/b/c/d.txt" = "/a/x/c/d.txt" :=
      by decide
    rw [← e3]
    exact hdn.2.2.2.2.2.1.mpr (by decide)
  · exact hb.2.2.1

/-! ### Counterexample scenes for C3, C4 and C10 -/

/-- Counterexample to C3 as stated: in the reachable state where root `/a`
has been expanded but no listing response has arrived yet, `/a` is in
OpenSet while its children are not present in the node table (the node\x27s
`children` array is empty and the table holds only `/a` itself), so the
claimed equivalence `path ∈ OpenSet ⇔ children present` fails in the
left-to-right direction. -/
theorem claim_c3_counterexample :
    Reach staleScene2 ∧
    "/a" ∈ staleScene2.openFolders ∧
    aLookup staleScene2.nodesMap "/a" = some 0 ∧
    (hGet staleScene2 0).map Node.type = some "folder" ∧
    (hGet staleScene2 0).map Node.children = some [] ∧
    staleScene2.nodesMap = [("/a", 0)] :=
  ⟨Reach.next _ _ (Reach.next _ _ Reach.init),
   by decide, by decide, by decide, by decide, by decide⟩

def c4Scene1 : State := step State.empty (Op.rootAdd "/a" none)

def c4Scene2 : State := step c4Scene1 (Op.expand "/a")

def c4Scene3 : State := step c4Scene2 (Op.listing "/a"
  [⟨"y.txt", "/a/y.txt", "file"⟩, ⟨"x.txt", "/a/x.txt", "file"⟩])

def c4Scene4 : State := step c4Scene3 (Op.click "/a/y.txt")

def c4Scene5 : State :=
  step c4Scene4 (Op.fsEvent ⟨"moved", "/a/x.txt", some "/a/y.txt", false⟩)

/-- Counterexample to C4 as stated: with files `/a/y.txt` (selected) and
`/a/x.txt` materialized under the open root `/a`, the overwriting
same-parent moved event `/a/x.txt → /a/y.txt` re-keys the `x.txt` node to
`/a/y.txt`, stealing the table entry of the selected node.  Afterwards
`/a/y.txt` is still in SelectedSet, but the node-table node at that path
is the renamed `x.txt` node whose `selected` flag is `false`, refuting the
invariant that every SelectedSet path is the path of a materialized file
node with `isSelected = true`. -/
theorem claim_c4_counterexample :
    Reach c4Scene5 ∧
    c4Scene5.selectedFiles = ["/a/y.txt"] ∧
    aLookup c4Scene5.nodesMap "/a/y.txt" = some 2 ∧
    (hGet c4Scene5 2).map Node.type = some "file" ∧
    (hGet c4Scene5 2).map Node.selected = some false ∧
    c4Scene5.nodesMap = [("/a", 0), ("/a/y.txt", 2)] :=
  ⟨Reach.next _ _ (Reach.next _ _ (Reach.next _ _ (Reach.next _ _
    (Reach.next _ _ Reach.init)))),
   by decide, by decide, by decide, by decide, by decide⟩

def orphScene1 : State := step State.empty (Op.rootAdd "/r" none)

def orphScene2 : State := step orphScene1 (Op.expand "/r")

def orphScene3 : State :=
  step orphScene2 (Op.listing "/r" [⟨"a", "/r/a", "folder"⟩])

def orphScene4 : State := step orphScene3 (Op.expand "/r/a")

def orphScene5 : State :=
  step orphScene4 (Op.listing "/r/a" [⟨"c", "/r/a/c", "folder"⟩])

def orphScene6 : State := step orphScene5 (Op.rootAdd "/w" none)

def orphScene7 : State := step orphScene6 (Op.expand "/w")

def orphScene8 : State :=
  step orphScene7 (Op.listing "/w" [⟨"c", "/r/x/c", "folder"⟩])

def orphScene9 : State :=
  step orphScene8 (Op.fsEvent ⟨"moved", "/r/a", some "/r/x", true⟩)

def orphScene10 : State :=
  step orphScene9 (Op.fsEvent ⟨"deleted", "/r/x/c", none, false⟩)

/-- Counterexample to C10 as stated: a malformed listing for the open root
`/w` registers a child object (heap ref 4) under the foreign path
`/r/x/c`; the colliding same-parent directory rename `/r/a → /r/x` then
re-keys the table entry `/r/x/c` to the renamed `/r/a/c` node (ref 2),
orphaning ref 4; the subsequent `deleted` event for `/r/x/c` removes
ref 2 via `removeNodeAndDescendants` without detaching ref 4 from its
parent `/w`.  In the final reachable state the table node `/w` (ref 3)
has `children = [4]` while ref 4\x27s id `/r/x/c` has no table entry and ref
4 appears in no table entry at all, so a node\x27s children array mentions a
node absent from the node table. -/
theorem claim_c10_counterexample :
    Reach orphScene10 ∧
    orphScene10 = removeNodeAndDescendants orphScene9 2 ∧
    aLookup orphScene10.nodesMap "/w" = some 3 ∧
    (hGet orphScene10 3).map Node.children = some [4] ∧
    (hGet orphScene10 4).map Node.id = some "/r/x/c" ∧
    aLookup orphScene10.nodesMap "/r/x/c" = none ∧
    orphScene10.nodesMap.all (fun e => e.2 ≠ 4) = true :=
  ⟨Reach.next _ _ (Reach.next _ _ (Reach.next _ _ (Reach.next _ _
    (Reach.next _ _ (Reach.next _ _ (Reach.next _ _ (Reach.next _ _
      (Reach.next _ _ (Reach.next _ _ Reach.init))))))))),
   by decide, by decide, by decide, by decide, by decide, by decide⟩

end GraphFS
